import Mathlib

/-!
# Verification of the easy-config schema / validation engine

A shallow embedding of the `config_def` crate (schema registry, validators,
value codec and the resolution engine generated by the `EasyConfig` derive
macro), together with proofs of the spec's testable properties.

Modelling conventions:
* Rust strings are Lean `String`s; the Rust `str` operations (`trim`,
  `to_lowercase`, `split(',')`, `join`) are modelled by executable functions
  over the underlying character list (`String.data`).
* Machine integers are modelled as `Int` with explicit range bounds
  (`i32` is `[-(2^31), 2^31 - 1]`).
* `f64` values produced by `str::parse::<f64>` are modelled exactly: finite
  values as rationals (every decimal literal denotes a rational), plus
  distinguished infinities and NaN with IEEE comparison behaviour.  The
  `Display` rendering is modelled as an exact decimal rendering, which agrees
  with Rust's shortest-round-trip output on the values exercised here.
* `Result<T, ConfigError>` is `Except ConfigError T`; a Rust `panic!` in a
  constructor is modelled by an `Option` result being `none`.
-/

set_option maxRecDepth 4000

deriving instance DecidableEq for Except

namespace EasyConfig

/-! ## Character-list primitives (models of Rust `str` operations) -/

/-- Model of whitespace as used by Rust `str::trim` (ASCII subset, which is
all the sources and the spec exercise). -/
def isWs (c : Char) : Bool := c.isWhitespace

/-- Model of Rust `str::trim`: drop leading and trailing whitespace. -/
def trimChars (l : List Char) : List Char :=
  ((l.dropWhile isWs).reverse.dropWhile isWs).reverse

/-- `str::trim` lifted to `String`. -/
def strTrim (s : String) : String := ⟨trimChars s.data⟩

/-- Model of `char::to_lowercase` restricted to ASCII (the only case the
sources exercise: boolean and numeric literals). -/
def lowerChar (c : Char) : Char :=
  if 'A' ≤ c ∧ c ≤ 'Z' then Char.ofNat (c.toNat + 32) else c

/-- Model of `str::to_lowercase`. -/
def strLower (s : String) : String := ⟨s.data.map lowerChar⟩

/-- Model of Rust `str::split(',')`: split at every comma, keeping empty
pieces (so `""` yields `[""]` and `","` yields `["", ""]`). -/
def splitChars : List Char → List (List Char)
  | [] => [[]]
  | c :: rest =>
    if c = ',' then [] :: splitChars rest
    else
      match splitChars rest with
      | [] => [[c]]
      | p :: ps => (c :: p) :: ps

/-- Model of `Vec<String>::join(",")` on the character level. -/
def joinChars : List (List Char) → List Char
  | [] => []
  | [p] => p
  | p :: ps => p ++ ',' :: joinChars ps

/-- `split(',')` lifted to `String`. -/
def strSplit (s : String) : List String := (splitChars s.data).map (fun l => ⟨l⟩)

/-- `join(", ")` for error messages (model of `Vec::join(", ")`). -/
def joinComma (l : List String) : String := String.intercalate ", " l

/-! ## Decimal digits: models of Rust integer printing and parsing -/

/-- Numeric value of an ASCII digit character. -/
def digitVal (c : Char) : ℕ := c.toNat - 48

/-- Value of a digit string, most significant first (the accumulator loop of
Rust `from_str_radix`). -/
def digitsToNat (ds : List Char) : ℕ := ds.foldl (fun a c => a * 10 + digitVal c) 0

/-- Digit loop of decimal printing, structurally recursive on a fuel bound so
that it evaluates inside the kernel; `fuel > n` is always enough. -/
def natReprAux : ℕ → ℕ → List Char
  | 0, _ => []
  | fuel + 1, n =>
    if n < 10 then [Char.ofNat (48 + n)]
    else natReprAux fuel (n / 10) ++ [Char.ofNat (48 + n % 10)]

/-- Model of Rust `u*::to_string`: decimal digits of `n`, no sign. -/
def natReprChars (n : ℕ) : List Char := natReprAux (n + 1) n

/-- Model of Rust `i*::to_string` / `{}` formatting of an integer. -/
def intRepr (v : ℤ) : String :=
  if v < 0 then ⟨'-' :: natReprChars v.natAbs⟩ else ⟨natReprChars v.natAbs⟩

/-- Strip one leading `+` or `-` sign; returns (is-negative, rest). -/
def parseSign : List Char → Bool × List Char
  | '+' :: rest => (false, rest)
  | '-' :: rest => (true, rest)
  | cs => (false, cs)

/-- The signed integer value of a sign-prefixed digit string. -/
def signedVal (cs : List Char) : ℤ :=
  if (parseSign cs).1 then -(digitsToNat (parseSign cs).2 : ℤ)
  else (digitsToNat (parseSign cs).2 : ℤ)

/-- Model of Rust `<iN as FromStr>::from_str` for a signed integer type with
inclusive bounds `lo`/`hi`: optional sign, one or more ASCII digits, range
check.  The error strings are the `Display` renderings of Rust's
`ParseIntError` kinds. -/
def parseRustInt (lo hi : ℤ) (s : String) : Except String ℤ :=
  if s.data.isEmpty then .error "cannot parse integer from empty string"
  else if (parseSign s.data).2.isEmpty then .error "invalid digit found in string"
  else if (parseSign s.data).2.all Char.isDigit then
    if signedVal s.data < lo then .error "number too small to fit in target type"
    else if hi < signedVal s.data then .error "number too large to fit in target type"
    else .ok (signedVal s.data)
  else .error "invalid digit found in string"

/-! ## Model of `f64` values produced by `str::parse::<f64>`

Finite values are kept as exact rationals (every decimal literal denotes a
rational, and all bounds the sources construct are small integers, on which
the rational and the `f64` semantics coincide); infinities and NaN are
distinguished constructors with IEEE comparison behaviour. -/

inductive F64 where
  | finite (q : ℚ)
  | inf (neg : Bool)
  | nan
deriving DecidableEq

/-- IEEE `<` on modelled `f64` values (`NaN` compares false to everything). -/
def F64.lt : F64 → F64 → Bool
  | .nan, _ => false
  | _, .nan => false
  | .finite a, .finite b => decide (a < b)
  | .finite _, .inf n => !n
  | .inf n, .finite _ => n
  | .inf a, .inf b => a && !b

/-- The integer mantissa of decimal digits `ip` (integer part) and `fp`
(fractional part). -/
def decMant (ip fp : List Char) : ℤ :=
  (digitsToNat ip : ℤ) * 10 ^ fp.length + (digitsToNat fp : ℤ)

/-- The rational denoted by integer digits `ip`, fractional digits `fp` and
decimal exponent `e`: the value `(ip.fp) * 10 ^ e`, computed as an exact
integer ratio. -/
def decQ (ip fp : List Char) (e : ℤ) : ℚ :=
  if 0 ≤ e - fp.length then ((decMant ip fp * 10 ^ (e - fp.length).toNat : ℤ) : ℚ)
  else Rat.divInt (decMant ip fp) (10 ^ (e - fp.length).natAbs)

/-- Parse the optional exponent suffix (`e`/`E`, optional sign, digits);
`[]` means "no exponent" and yields exponent `0`. -/
def parseExpPart : List Char → Option ℤ
  | [] => some 0
  | e :: rest =>
    if e = 'e' ∨ e = 'E' then
      if (parseSign rest).2 ≠ [] ∧ (parseSign rest).2.all Char.isDigit then
        some (signedVal rest)
      else none
    else none

/-- Parse the `Number` alternative of the Rust `f64` grammar
(`Count '.'? Count? Exp?`, also `'.' Count Exp?`); a span at the digits is
the pair takeWhile / dropWhile. -/
def parseNumber (cs : List Char) : Option ℚ :=
  match cs.dropWhile Char.isDigit with
  | '.' :: rest2 =>
    if (cs.takeWhile Char.isDigit).isEmpty ∧ (rest2.takeWhile Char.isDigit).isEmpty
    then none
    else (parseExpPart (rest2.dropWhile Char.isDigit)).map
      (fun e => decQ (cs.takeWhile Char.isDigit) (rest2.takeWhile Char.isDigit) e)
  | rest =>
    if (cs.takeWhile Char.isDigit).isEmpty then none
    else (parseExpPart rest).map (fun e => decQ (cs.takeWhile Char.isDigit) [] e)

/-- The `inf` / `infinity` / `nan` alternatives (case-insensitive). -/
def parseSpecial (neg : Bool) (cs : List Char) : Option F64 :=
  if cs.map lowerChar = "inf".data ∨ cs.map lowerChar = "infinity".data then
    some (.inf neg)
  else if cs.map lowerChar = "nan".data then some .nan
  else none

/-- Model of `<f64 as FromStr>::from_str` (used by `Range::validate` and by
the `f64` value codec): optional sign, then a special value or else (`.or`)
a decimal number. -/
def parseF64 (s : String) : Option F64 :=
  if s.data.isEmpty then none
  else
    (parseSpecial (parseSign s.data).1 (parseSign s.data).2).or
      ((parseNumber (parseSign s.data).2).map
        (fun q => .finite (if (parseSign s.data).1 then -q else q)))

/-- Left-pad a digit string with `'0'` to length at least `k + 1`. -/
def padDigits (ds : List Char) (k : ℕ) : List Char :=
  List.replicate (k + 1 - ds.length) '0' ++ ds

/-- Insert a decimal point `k` digits from the right (no-op for `k = 0`). -/
def insertPoint (ds : List Char) (k : ℕ) : List Char :=
  if k = 0 then ds
  else ds.take (ds.length - k) ++ '.' :: ds.drop (ds.length - k)

/-- Exact decimal rendering of `num / den` using `k` fractional digits
(meaningful when `den ∣ 10 ^ k`). -/
def renderDec (num : ℤ) (den : ℕ) (k : ℕ) : List Char :=
  if num < 0 then
    '-' :: insertPoint (padDigits (natReprChars (num.natAbs * 10 ^ k / den)) k) k
  else insertPoint (padDigits (natReprChars (num.natAbs * 10 ^ k / den)) k) k

/-- Model of `f64` `Display` for a finite value: exact decimal rendering with
the least number of fractional digits.  It agrees with Rust's output on every
value whose shortest round-trip representation is its exact decimal (in
particular on all integers, which is all the sources' messages ever print).
The fallback branch is unreachable for values produced by `parseF64`. -/
def fmtQ (q : ℚ) : String :=
  match (List.range (q.den + 1)).find? (fun k => decide (q.den ∣ 10 ^ k)) with
  | some k => ⟨renderDec q.num q.den k⟩
  | none => ⟨renderDec q.num q.den q.den⟩

/-- Model of `f64` `Display`. -/
def fmtF64 : F64 → String
  | .finite q => fmtQ q
  | .inf neg => if neg then "-inf" else "inf"
  | .nan => "NaN"

/-! ## Errors (src/config_def/src/errors/mod.rs) -/

/-- Model of `ConfigError`. -/
inductive ConfigError where
  | missingName (name : String)
  | invalidValue (name : String) (message : String)
  | validationFailed (name : String) (message : String)
deriving DecidableEq

/-! ## Validators (src/config_def/src/validators/) -/

/-- Model of `Range` (src/config_def/src/validators/range.rs): optional
inclusive bounds, stored as `f64` in the source; every bound the factories
accept is a finite number, modelled as a rational. -/
structure Range where
  min : Option ℚ
  max : Option ℚ
deriving DecidableEq

/-- `Range::at_least`. -/
def Range.at_least (min : ℚ) : Range := ⟨some min, none⟩

/-- `Range::between`. -/
def Range.between (min max : ℚ) : Range := ⟨some min, some max⟩

/-- Upper-bound half of `Range::validate`. -/
def Range.checkMax (r : Range) (name : String) (n : F64) : Except ConfigError Unit :=
  match r.max with
  | some m =>
    if F64.lt (.finite m) n then
      .error (.validationFailed name
        ("Value " ++ fmtF64 n ++ " must be no more than " ++ fmtQ m))
    else .ok ()
  | none => .ok ()

/-- Model of `Range::validate`: trim, parse as `f64`, check the bounds in
order (lower bound first). -/
def Range.validate (r : Range) (name value : String) : Except ConfigError Unit :=
  match parseF64 (strTrim value) with
  | none => .error (.invalidValue name "Value is not a valid number")
  | some n =>
    match r.min with
    | some m =>
      if F64.lt n (.finite m) then
        .error (.validationFailed name
          ("Value " ++ fmtF64 n ++ " must be at least " ++ fmtQ m))
      else r.checkMax name n
    | none => r.checkMax name n

/-- Model of `ValidString` (src/config_def/src/validators/valid_string.rs). -/
structure ValidString where
  valid_strings : List String
deriving DecidableEq

/-- `ValidString::in_list`. -/
def ValidString.in_list (valid_strings : List String) : ValidString := ⟨valid_strings⟩

/-- Model of `ValidString::validate`: trim; fail unless the trimmed value is
a member of the allow-list. -/
def ValidString.validate (v : ValidString) (name value : String) :
    Except ConfigError Unit :=
  let s := strTrim value
  if v.valid_strings.contains s then .ok ()
  else .error (.validationFailed name
    ("String must be one of: " ++ joinComma v.valid_strings))

/-- Model of `impl Display for ValidString`: `[a, b, c]`. -/
def ValidString.display (v : ValidString) : String :=
  "[" ++ joinComma v.valid_strings ++ "]"

/-- Model of `ValidList` (src/config_def/src/validators/valid_list.rs). -/
structure ValidList where
  valid_string : ValidString
  is_empty_allowed : Bool
deriving DecidableEq

/-- The private `ValidList::new`. -/
def ValidList.new (valid_strings : List String) (is_empty_allowed : Bool) : ValidList :=
  ⟨⟨valid_strings⟩, is_empty_allowed⟩

/-- `ValidList::any_non_duplicate_values`. -/
def ValidList.any_non_duplicate_values (is_empty_allowed : Bool) : ValidList :=
  .new [] is_empty_allowed

/-- `ValidList::in_list` (empty lists allowed by default). -/
def ValidList.in_list (valid_strings : List String) : ValidList :=
  .new valid_strings true

/-- Model of `ValidList::in_list_allow_empty`.  The source `panic!`s when an
empty list is disallowed but no valid strings are provided; the uncatchable
panic is modelled as the `none` result. -/
def ValidList.in_list_allow_empty (is_empty_allowed : Bool)
    (valid_strings : List String) : Option ValidList :=
  if is_empty_allowed = false ∧ valid_strings = [] then none
  else some (.new valid_strings is_empty_allowed)

/-- Model of `impl Display for ValidList`. -/
def ValidList.display (v : ValidList) : String :=
  v.valid_string.display ++ " (empty config "
    ++ (if v.is_empty_allowed then "empty config allowed" else "empty not allowed")
    ++ ")"

/-- The parsed item list `ValidList::validate` works on: split the trimmed
input at commas, trim each item, and collapse a single empty item to the
empty list. -/
def ValidList.items (value : String) : List String :=
  match (splitChars (trimChars value.data)).map
      (fun l => (⟨trimChars l⟩ : String)) with
  | [s] => if s = "" then [] else [s]
  | l => l

/-- Step 4 of `ValidList::validate`: check the items in order; an empty item
fails first, then membership in a non-empty allow-list. -/
def ValidList.checkItems (v : ValidList) (name : String) :
    List String → Except ConfigError Unit
  | [] => .ok ()
  | val :: rest =>
    if val = "" then
      .error (.validationFailed name
        ("Configuration '" ++ name ++ "' values must not be empty."))
    else if v.valid_string.valid_strings ≠ [] ∧
        v.valid_string.valid_strings.contains val = false then
      .error (.validationFailed name
        ("Invalid value '" ++ val ++ "' for configuration '" ++ name
          ++ "': String must be one of: " ++ joinComma v.valid_string.valid_strings))
    else v.checkItems name rest

/-- Model of `ValidList::validate`: parse the list, then apply the three
policies in order — empty-list policy, duplicate policy (a hash-set size
comparison in the source, modelled by comparing with the deduplicated
length), per-item validity. -/
def ValidList.validate (v : ValidList) (name value : String) :
    Except ConfigError Unit :=
  if v.is_empty_allowed = false ∧ ValidList.items value = [] then
    .error (.validationFailed name
      ("Configuration '" ++ name ++ "' must not be empty. Valid values include: "
        ++ (if v.valid_string.valid_strings = [] then "any non-empty value"
            else v.display)))
  else if (ValidList.items value).dedup.length ≠ (ValidList.items value).length then
    .error (.validationFailed name
      ("Configuration '" ++ name ++ "' values must not be duplicated."))
  else v.checkItems name (ValidList.items value)

/-- The polymorphic `Box<dyn Validator>` (the three concrete validators of
the crate). -/
inductive Validator where
  | range (r : Range)
  | validString (v : ValidString)
  | validList (v : ValidList)
deriving DecidableEq

/-- Dynamic dispatch of `Validator::validate`. -/
def Validator.validate : Validator → String → String → Except ConfigError Unit
  | .range r, name, value => r.validate name value
  | .validString v, name, value => v.validate name value
  | .validList v, name, value => v.validate name value

/-! ## Value codec (`ConfigValue` impls, src/config_def/src/core/mod.rs and
core/macros.rs) -/

/-- The `i32` bounds. -/
def i32lo : ℤ := -(2 ^ 31)

/-- The `i32` bounds. -/
def i32hi : ℤ := 2 ^ 31 - 1

/-- Model of the `impl_config_value_for_fromstr!` parse for a signed integer
type with bounds `lo`/`hi`: trim, lowercase, then `FromStr`, wrapping the
error into `InvalidValue`. -/
def IntVal.parse (lo hi : ℤ) (key s : String) : Except ConfigError ℤ :=
  match parseRustInt lo hi (strLower (strTrim s)) with
  | .ok v => .ok v
  | .error m => .error (.invalidValue key m)

/-- `to_config_string` for integer types (`self.to_string()`). -/
def IntVal.toConfigString : ℤ → String := intRepr

/-- `<i32 as ConfigValue>::parse`. -/
def I32.parse : String → String → Except ConfigError ℤ := IntVal.parse i32lo i32hi

/-- Model of `<bool as ConfigValue>::parse`: trim, lowercase, then
`bool::from_str`, which accepts exactly `true` and `false`. -/
def BoolVal.parse (key s : String) : Except ConfigError Bool :=
  match strLower (strTrim s) with
  | "true" => .ok true
  | "false" => .ok false
  | _ => .error (.invalidValue key "provided string was not `true` or `false`")

/-- `to_config_string` for `bool`. -/
def BoolVal.toConfigString (b : Bool) : String := if b then "true" else "false"

/-- Model of `<f64 as ConfigValue>::parse`: trim, lowercase, `f64::from_str`.
The `ParseFloatError` display is a fixed string. -/
def F64Val.parse (key s : String) : Except ConfigError F64 :=
  match parseF64 (strLower (strTrim s)) with
  | some v => .ok v
  | none => .error (.invalidValue key "invalid float literal")

/-- `to_config_string` for `f64` (its `Display`). -/
def F64Val.toConfigString : F64 → String := fmtF64

/-- Model of `<String as ConfigValue>::parse`: trim only. -/
def StringVal.parse (s : String) : Except ConfigError String := .ok (strTrim s)

/-- `to_config_string` for `String` (`self.clone()`). -/
def StringVal.toConfigString (s : String) : String := s

/-- Model of `<Vec<String> as ConfigValue>::parse`: trim; an empty string is
the empty list; otherwise split at commas and trim each item. -/
def VecString.parse (s : String) : Except ConfigError (List String) :=
  if (trimChars s.data).isEmpty then .ok []
  else .ok ((splitChars (trimChars s.data)).map (fun l => ⟨trimChars l⟩))

/-- `to_config_string` for `Vec<String>` (`self.join(",")`). -/
def VecString.toConfigString (l : List String) : String :=
  ⟨joinChars (l.map String.data)⟩

/-- Modelled from the spec: the secret `Password` type lives in a
`types` module that is not part of the sources; per the spec it wraps the
real secret string, which `to_config_string` exposes for validation while
the display rendering is a fixed placeholder. -/
structure Password where
  password : String
deriving DecidableEq

/-- Model of `<Password as ConfigValue>::parse` (src/config_def/src/core/mod.rs):
trim and wrap. -/
def PasswordVal.parse (s : String) : Except ConfigError Password :=
  .ok ⟨strTrim s⟩

/-- `to_config_string` for `Password`: the real value (`self.password()`). -/
def PasswordVal.toConfigString (p : Password) : String := p.password

/-- Modelled from the spec: the redacted `Display` of `Password` is the
fixed placeholder the tests assert. -/
def Password.display (_p : Password) : String := "[hidden]"

/-! ## Schema registry (`ConfigKey`, `ConfigDef`) and the resolution engine
generated by the `EasyConfig` derive macro -/

/-- `Importance` (src/config_def/src/core/mod.rs). -/
inductive Importance where
  | HIGH
  | MEDIUM
  | LOW
deriving DecidableEq

/-- The field types the claims exercise; stands for the type parameter `T`
of `ConfigKey<T>` / the declared field type. -/
inductive CType where
  | i32
  | string
deriving DecidableEq

/-- A typed configuration value (the resolved native value of a field). -/
inductive CVal where
  | int (v : ℤ)
  | str (s : String)
deriving DecidableEq

/-- `ConfigValue::parse` dispatched by declared type. -/
def CType.parse : CType → String → String → Except ConfigError CVal
  | .i32, key, s => (I32.parse key s).map CVal.int
  | .string, _key, s => (StringVal.parse s).map CVal.str

/-- `ConfigValue::to_config_string` dispatched by value. -/
def CVal.toConfigString : CVal → String
  | .int v => intRepr v
  | .str s => s

/-- Model of `ConfigKey` (metadata for one field; the type-erased trait
object view exposes exactly these components). -/
structure ConfigKey where
  name : String
  documentation : Option String := none
  default_value : Option CVal := none
  validator : Option Validator := none
  importance : Option Importance := none
  group : Option String := none
  internal_config : Bool := false
deriving DecidableEq

/-- Model of `ConfigDef`: the `IndexMap` of keys is an insertion-ordered
association list, plus the first-seen list of group labels. -/
structure ConfigDef where
  config_keys : List (String × ConfigKey)
  groups : List String
deriving DecidableEq

/-- `ConfigDef::find_key`. -/
def ConfigDef.find_key (d : ConfigDef) (name : String) : Option ConfigKey :=
  d.config_keys.lookup name

/-- One step of the construction loop: `IndexMap::insert` returns the
previous entry on a name collision, which aborts with the "defined twice"
error. -/
def insertKey (acc : List (String × ConfigKey)) (k : ConfigKey) :
    Except ConfigError (List (String × ConfigKey)) :=
  if (acc.lookup k.name).isSome then
    .error (.validationFailed k.name
      ("Configuration key '" ++ k.name ++ "' is defined twice."))
  else .ok (acc ++ [(k.name, k)])

/-- The insertion loop of `TryFrom<Vec<ConfigKey>> for ConfigDef`. -/
def insertKeys (acc : List (String × ConfigKey)) :
    List ConfigKey → Except ConfigError (List (String × ConfigKey))
  | [] => .ok acc
  | k :: rest =>
    match insertKey acc k with
    | .ok acc2 => insertKeys acc2 rest
    | .error e => .error e

/-- The group-label collection of construction: every `group` label, first
occurrence only, in insertion order. -/
def collectGroups (seen : List String) :
    List (String × ConfigKey) → List String
  | [] => []
  | (_, k) :: rest =>
    match k.group with
    | some g =>
      if seen.contains g then collectGroups seen rest
      else g :: collectGroups (g :: seen) rest
    | none => collectGroups seen rest

/-- Model of `TryFrom<Vec<ConfigKey>> for ConfigDef` (src/config_def/src/lib.rs,
and identically core/mod.rs): sequential duplicate-checked insertion, then
group collection. -/
def ConfigDef.tryFrom (keys : List ConfigKey) : Except ConfigError ConfigDef :=
  match insertKeys [] keys with
  | .ok m => .ok ⟨m, collectGroups [] m⟩
  | .error e => .error e

/-- One field of an `EasyConfig`-derived struct: its `ConfigKey`, its
declared type, and whether the struct field is `Option<T>`. -/
structure Field where
  key : ConfigKey
  ctype : CType
  optional : Bool
deriving DecidableEq

/-- The raw property map (`HashMap<String, String>`), as an association
list; `lookup` models `HashMap::get`. -/
def propsGet (props : List (String × String)) (name : String) : Option String :=
  props.lookup name

/-- The generated `config_def()` for a struct: define every field's key in
declaration order with duplicate detection. -/
def configDefOf (fields : List Field) : Except ConfigError ConfigDef :=
  ConfigDef.tryFrom (fields.map Field.key)

/-- The `get_value` closure of the generated `from_props`: look the key up
in the schema, take the supplied string or else the default rendered by
`to_config_string`, fail with `MissingName` when neither exists, and run the
attached validator on the chosen string. -/
def getValue (d : ConfigDef) (props : List (String × String)) (name : String) :
    Except ConfigError String :=
  match d.find_key name with
  | none => .error (.missingName name)
  | some meta =>
    match (propsGet props name).or (meta.default_value.map CVal.toConfigString) with
    | none => .error (.missingName name)
    | some s =>
      match meta.validator with
      | some v => (v.validate name s).map (fun _ => s)
      | none => .ok s

/-- The generated initializer for an `Option<T>` field: like `get_value`
followed by `parse`, except that a missing value resolves to `none`. -/
def resolveOptional (d : ConfigDef) (props : List (String × String)) (f : Field) :
    Except ConfigError (Option CVal) :=
  match d.find_key f.key.name with
  | none => .error (.missingName f.key.name)
  | some meta =>
    match (propsGet props f.key.name).or
        (meta.default_value.map CVal.toConfigString) with
    | some s =>
      match meta.validator with
      | some v => (v.validate f.key.name s).bind
          (fun _ => (f.ctype.parse f.key.name s).map some)
      | none => (f.ctype.parse f.key.name s).map some
    | none => .ok none

/-- The generated initializer for one struct field. -/
def resolveField (d : ConfigDef) (props : List (String × String)) (f : Field) :
    Except ConfigError (Option CVal) :=
  if f.optional then resolveOptional d props f
  else (getValue d props f.key.name).bind
    (fun s => (f.ctype.parse f.key.name s).map some)

/-- The field initializers of the generated `from_props`, in declaration
order; the first failing field aborts the whole resolution. -/
def resolveFields (d : ConfigDef) (props : List (String × String)) :
    List Field → Except ConfigError (List (Option CVal))
  | [] => .ok []
  | f :: rest =>
    match resolveField d props f with
    | .error e => .error e
    | .ok v =>
      match resolveFields d props rest with
      | .error e => .error e
      | .ok vs => .ok (v :: vs)

/-- The generated `from_props` for a plain (non-merge) struct: build (or
fetch) the schema, then resolve every field against it. -/
def fromProps (fields : List Field) (props : List (String × String)) :
    Except ConfigError (List (Option CVal)) :=
  match configDefOf fields with
  | .error e => .error e
  | .ok d => resolveFields d props fields

/-- Error-propagating map (the `?`-operator sequencing of a loop over
sub-configs). -/
def mapExcept {α β : Type} (f : α → Except ConfigError β) :
    List α → Except ConfigError (List β)
  | [] => .ok []
  | a :: rest =>
    match f a with
    | .error e => .error e
    | .ok b =>
      match mapExcept f rest with
      | .error e => .error e
      | .ok bs => .ok (b :: bs)

/-- The generated `config_def()` for a struct whose fields are all `#[merge]`
sub-configs: build each sub-schema (propagating its error), then re-define
all their keys in order through the same duplicate detection. -/
def mergeConfigDef (subs : List (List Field)) : Except ConfigError ConfigDef :=
  match mapExcept (fun s =>
      (configDefOf s).map (fun d => d.config_keys.map Prod.snd)) subs with
  | .error e => .error e
  | .ok keyLists => ConfigDef.tryFrom keyLists.flatten

/-- The generated `from_props` for a merge struct: check the composite
schema, then delegate to every sub-config's own `from_props` on the same raw
property map. -/
def mergeFromProps (subs : List (List Field)) (props : List (String × String)) :
    Except ConfigError (List (List (Option CVal))) :=
  match mergeConfigDef subs with
  | .error e => .error e
  | .ok _ => mapExcept (fun s => fromProps s props) subs

/-! ## Fixtures for the spec's concrete scenarios -/

/-- Required `i32` field `a` with default `5` and `Range(0, 14)` (the spec's
required-field scenario). -/
def reqField : Field :=
  ⟨⟨"a", none, some (.int 5), some (.range (.between 0 14)), some .HIGH, none, false⟩,
    .i32, false⟩

/-- The same field with the deliberately broken default `20` (violating its
own `Range(0, 14)`). -/
def badDefaultField : Field :=
  ⟨⟨"a", none, some (.int 20), some (.range (.between 0 14)), none, none, false⟩,
    .i32, false⟩

/-- Optional `i32` field `a` with no default and no validator. -/
def optField : Field := ⟨⟨"a", none, none, none, none, none, false⟩, .i32, true⟩

/-- Sub-schema `S1` of the spec's merge scenario: `a1` (`i32`, default 5,
`Range(0, 14)`) and `b1` (`String`, default `"hello"`). -/
def mergeS1 : List Field :=
  [⟨⟨"a1", none, some (.int 5), some (.range (.between 0 14)), some .HIGH, none, false⟩,
     .i32, false⟩,
   ⟨⟨"b1", none, some (.str "hello"), none, some .HIGH, none, false⟩, .string, false⟩]

/-- Sub-schema `S2` of the spec's merge scenario: `a2` (`i32`, default 5,
`Range(0, 14)`) and `b2` (required `String`). -/
def mergeS2 : List Field :=
  [⟨⟨"a2", none, some (.int 5), some (.range (.between 0 14)), some .HIGH, none, false⟩,
     .i32, false⟩,
   ⟨⟨"b2", none, none, none, some .HIGH, none, false⟩, .string, false⟩]

/-! ## Lemmas: characters and trimming -/

/-- The decimal digit characters, as produced by the printers. -/
def DigitC (c : Char) : Prop := ∃ k, k < 10 ∧ c = Char.ofNat (48 + k)

theorem digitC_facts (c : Char) (h : DigitC c) :
    c.isDigit = true ∧ isWs c = false ∧ lowerChar c = c ∧ digitVal c < 10 ∧
    c ≠ ',' ∧ c ≠ '.' ∧ c ≠ '+' ∧ c ≠ '-' ∧ c ≠ 'i' ∧ c ≠ 'n' ∧
    c ≠ 'e' ∧ c ≠ 'E' := by
  obtain ⟨k, hk, rfl⟩ := h
  interval_cases k <;> exact ⟨by decide, by decide, by decide, by decide, by decide,
    by decide, by decide, by decide, by decide, by decide, by decide, by decide⟩

theorem digitVal_ofNat (k : ℕ) (hk : k < 10) : digitVal (Char.ofNat (48 + k)) = k := by
  interval_cases k <;> decide

theorem dropWhile_eq_self_of_head (l : List Char)
    (h : ∀ c, l.head? = some c → isWs c = false) : l.dropWhile isWs = l := by
  cases l with
  | nil => rfl
  | cons c rest => simp [List.dropWhile_cons, h c rfl]

theorem head?_dropWhile_ws (l : List Char) :
    ∀ c, (l.dropWhile isWs).head? = some c → isWs c = false := by
  induction l with
  | nil => simp
  | cons a rest ih =>
    intro c hc
    rw [List.dropWhile_cons] at hc
    by_cases ha : isWs a
    · exact ih c (by simpa [ha] using hc)
    · simp [ha] at hc
      subst hc
      simpa using ha

theorem mem_of_head?_some {α : Type} (l : List α) (c : α) (h : l.head? = some c) :
    c ∈ l := by
  cases l with
  | nil => simp at h
  | cons a t =>
    simp at h
    subst h
    exact List.mem_cons_self a t

theorem mem_of_getLast?_some {α : Type} (l : List α) (c : α)
    (h : l.getLast? = some c) : c ∈ l := by
  have : l.reverse.head? = some c := by rwa [List.head?_reverse]
  simpa using List.mem_reverse.1 (mem_of_head?_some l.reverse c this)

theorem trimChars_pref (l : List Char) : trimChars l <+: l.dropWhile isWs := by
  unfold trimChars
  have h : ((l.dropWhile isWs).reverse.dropWhile isWs) <:+ (l.dropWhile isWs).reverse :=
    List.dropWhile_suffix isWs
  have h2 := (@List.reverse_prefix Char ((l.dropWhile isWs).reverse.dropWhile isWs)
    ((l.dropWhile isWs).reverse)).2 h
  simpa using h2

theorem trimChars_head (l : List Char) :
    ∀ c, (trimChars l).head? = some c → isWs c = false := by
  intro c hc
  obtain ⟨t, ht⟩ := trimChars_pref l
  apply head?_dropWhile_ws l c
  rw [← ht, List.head?_append, hc]
  rfl

theorem trimChars_getLast (l : List Char) :
    ∀ c, (trimChars l).getLast? = some c → isWs c = false := by
  intro c hc
  unfold trimChars at hc
  rw [List.getLast?_reverse] at hc
  exact head?_dropWhile_ws _ c hc

theorem trimChars_eq_self (l : List Char)
    (hh : ∀ c, l.head? = some c → isWs c = false)
    (hl : ∀ c, l.getLast? = some c → isWs c = false) : trimChars l = l := by
  unfold trimChars
  rw [dropWhile_eq_self_of_head l hh,
    dropWhile_eq_self_of_head l.reverse (fun c hc => hl c (by rwa [List.head?_reverse] at hc)),
    List.reverse_reverse]

theorem trimChars_idem (l : List Char) : trimChars (trimChars l) = trimChars l :=
  trimChars_eq_self _ (trimChars_head l) (trimChars_getLast l)

theorem trimChars_eq_self_of_all (l : List Char)
    (h : ∀ c ∈ l, isWs c = false) : trimChars l = l := by
  refine trimChars_eq_self l (fun c hc => ?_) (fun c hc => ?_)
  · exact h c (by cases l <;> simp_all)
  · exact h c (mem_of_getLast?_some l c hc)

theorem strTrim_idem (s : String) : strTrim (strTrim s) = strTrim s := by
  simp [strTrim, trimChars_idem]

/-! ## Lemmas: splitting and joining -/

theorem splitChars_ne_nil (l : List Char) : splitChars l ≠ [] := by
  induction l with
  | nil => simp [splitChars]
  | cons c rest ih =>
    rw [splitChars]
    split
    · simp
    · match h : splitChars rest with
      | [] => simp
      | p :: ps => simp

theorem splitChars_no_comma (l : List Char) : ∀ p ∈ splitChars l, ',' ∉ p := by
  induction l with
  | nil => simp [splitChars]
  | cons c rest ih =>
    intro p hp
    rw [splitChars] at hp
    by_cases hc : c = ','
    · simp [hc] at hp
      rcases hp with h | h
      · simp [h]
      · exact ih p h
    · rw [if_neg hc] at hp
      match hsp : splitChars rest with
      | [] => exact absurd hsp (splitChars_ne_nil rest)
      | q :: qs =>
        rw [hsp] at hp
        rcases List.mem_cons.1 hp with h | h
        · subst h
          intro hmem
          rcases List.mem_cons.1 hmem with h | h
          · exact hc h.symm
          · exact ih q (by simp [hsp]) h
        · exact ih p (by simp [hsp, h])

theorem splitChars_of_no_comma (l : List Char) (h : ',' ∉ l) : splitChars l = [l] := by
  induction l with
  | nil => rfl
  | cons c rest ih =>
    rw [splitChars, if_neg (by intro hc; exact h (by simp [hc]))]
    rw [ih (by intro hm; exact h (by simp [hm]))]

theorem splitChars_append_comma (p r : List Char) (h : ',' ∉ p) :
    splitChars (p ++ ',' :: r) = p :: splitChars r := by
  induction p with
  | nil => simp [splitChars]
  | cons c q ih =>
    have hc : ¬(c = ',') := by intro hc; exact h (by simp [hc])
    rw [List.cons_append, splitChars, if_neg hc,
      ih (by intro hm; exact h (by simp [hm]))]

theorem splitChars_joinChars (ps : List (List Char)) (hne : ps ≠ [])
    (h : ∀ p ∈ ps, ',' ∉ p) : splitChars (joinChars ps) = ps := by
  induction ps with
  | nil => exact absurd rfl hne
  | cons p qs ih =>
    cases qs with
    | nil => exact splitChars_of_no_comma p (h p (by simp))
    | cons q rs =>
      have hj : joinChars (p :: q :: rs) = p ++ ',' :: joinChars (q :: rs) := rfl
      rw [hj, splitChars_append_comma p _ (h p (by simp)),
        ih (by simp) (fun x hx => h x (by simp [hx]))]

theorem joinChars_map_trimmed (ps : List (List Char))
    (hp : ∀ p ∈ ps, trimChars p = p) : ps.map trimChars = ps := by
  induction ps with
  | nil => rfl
  | cons p qs ih =>
    rw [List.map_cons, hp p (by simp), ih (fun x hx => hp x (by simp [hx]))]

/-! ## Lemmas: decimal digits -/

theorem digits_foldl_from (m : List Char) : ∀ a : ℕ,
    m.foldl (fun x c => x * 10 + digitVal c) a =
      a * 10 ^ m.length + digitsToNat m := by
  induction m with
  | nil => intro a; simp [digitsToNat]
  | cons c rest ih =>
    intro a
    rw [List.foldl_cons, ih (a * 10 + digitVal c)]
    have h0 : digitsToNat (c :: rest) = digitVal c * 10 ^ rest.length + digitsToNat rest := by
      rw [digitsToNat, List.foldl_cons, ih (0 * 10 + digitVal c)]
      simp
    rw [h0]
    simp only [List.length_cons, pow_succ]
    ring

theorem digitsToNat_append (l m : List Char) :
    digitsToNat (l ++ m) = digitsToNat l * 10 ^ m.length + digitsToNat m := by
  rw [digitsToNat, List.foldl_append, digits_foldl_from]
  rfl

theorem digitsToNat_replicate_zero (z : ℕ) (m : List Char) :
    digitsToNat (List.replicate z '0' ++ m) = digitsToNat m := by
  induction z with
  | zero => simp
  | succ n ih =>
    rw [List.replicate_succ, List.cons_append, digitsToNat, List.foldl_cons]
    have : (0 * 10 + digitVal '0') = 0 := by decide
    rw [this]
    exact ih

theorem natReprAux_spec (fuel : ℕ) : ∀ n < fuel,
    digitsToNat (natReprAux fuel n) = n ∧ natReprAux fuel n ≠ [] ∧
      ∀ c ∈ natReprAux fuel n, DigitC c := by
  induction fuel with
  | zero => intro n hn; omega
  | succ fuel ih =>
    intro n hn
    rw [natReprAux]
    by_cases h : n < 10
    · rw [if_pos h]
      refine ⟨by simpa [digitsToNat] using digitVal_ofNat n h, by simp, ?_⟩
      intro c hc
      simp at hc
      exact ⟨n, h, hc⟩
    · rw [if_neg h]
      have hdiv : n / 10 < fuel := by omega
      obtain ⟨ihv, ihne, ihd⟩ := ih (n / 10) hdiv
      refine ⟨?_, by simp, ?_⟩
      · rw [digitsToNat_append, ihv]
        simp [digitsToNat]
        rw [digitVal_ofNat (n % 10) (by omega)]
        omega
      · intro c hc
        rcases List.mem_append.1 hc with h1 | h1
        · exact ihd c h1
        · simp at h1
          exact ⟨n % 10, by omega, h1⟩

theorem natReprChars_val (n : ℕ) : digitsToNat (natReprChars n) = n :=
  (natReprAux_spec (n + 1) n (by omega)).1

theorem natReprChars_ne_nil (n : ℕ) : natReprChars n ≠ [] :=
  (natReprAux_spec (n + 1) n (by omega)).2.1

theorem natReprChars_digitC (n : ℕ) : ∀ c ∈ natReprChars n, DigitC c :=
  (natReprAux_spec (n + 1) n (by omega)).2.2

/-! ## Lemmas: integer codec round trip -/

theorem parseSign_not_sign (c : Char) (rest : List Char) (h1 : c ≠ '+') (h2 : c ≠ '-') :
    parseSign (c :: rest) = (false, c :: rest) := by
  unfold parseSign
  split
  · rename_i heq
    rw [List.cons.injEq] at heq
    exact absurd heq.1 h1
  · rename_i heq
    rw [List.cons.injEq] at heq
    exact absurd heq.1 h2
  · rfl

theorem strTrim_eq_self (s : String) (h : ∀ c ∈ s.data, isWs c = false) :
    strTrim s = s := by
  cases s with
  | mk data =>
    show String.mk (trimChars data) = String.mk data
    rw [trimChars_eq_self_of_all data h]

theorem strLower_eq_self (s : String) (h : ∀ c ∈ s.data, lowerChar c = c) :
    strLower s = s := by
  cases s with
  | mk data =>
    show String.mk (data.map lowerChar) = String.mk data
    rw [List.map_congr_left h]
    simp

theorem intRepr_data (v : ℤ) :
    (intRepr v).data = if v < 0 then '-' :: natReprChars v.natAbs
      else natReprChars v.natAbs := by
  unfold intRepr
  split <;> rfl

theorem intRepr_chars (v : ℤ) : ∀ c ∈ (intRepr v).data, DigitC c ∨ c = '-' := by
  intro c hc
  rw [intRepr_data] at hc
  split at hc
  · rcases List.mem_cons.1 hc with h | h
    · exact Or.inr h
    · exact Or.inl (natReprChars_digitC v.natAbs c h)
  · exact Or.inl (natReprChars_digitC v.natAbs c hc)

theorem intRepr_untouched (v : ℤ) :
    strLower (strTrim (intRepr v)) = intRepr v := by
  have hws : ∀ c ∈ (intRepr v).data, isWs c = false := by
    intro c hc
    rcases intRepr_chars v c hc with h | h
    · exact (digitC_facts c h).2.1
    · rw [h]; decide
  have hlo : ∀ c ∈ (intRepr v).data, lowerChar c = c := by
    intro c hc
    rcases intRepr_chars v c hc with h | h
    · exact (digitC_facts c h).2.2.1
    · rw [h]; decide
  rw [strTrim_eq_self _ hws, strLower_eq_self _ hlo]

theorem parseRustInt_intRepr (lo hi v : ℤ) (h1 : lo ≤ v) (h2 : v ≤ hi) :
    parseRustInt lo hi (intRepr v) = .ok v := by
  have hds := natReprChars_digitC v.natAbs
  have hall : (natReprChars v.natAbs).all Char.isDigit = true :=
    List.all_eq_true.2 (fun c hc => (digitC_facts c (hds c hc)).1)
  have hval : digitsToNat (natReprChars v.natAbs) = v.natAbs := natReprChars_val _
  obtain ⟨c, rest, hcr⟩ := List.exists_cons_of_ne_nil (natReprChars_ne_nil v.natAbs)
  have hcd := digitC_facts c (hds c (by rw [hcr]; exact List.mem_cons_self c rest))
  have hne : (natReprChars v.natAbs).isEmpty = false := by rw [hcr]; rfl
  by_cases hv : v < 0
  · have hdata : (intRepr v).data = '-' :: natReprChars v.natAbs := by
      rw [intRepr_data, if_pos hv]
    have hempty : (intRepr v).data.isEmpty = false := by rw [hdata]; rfl
    have hsign : parseSign (intRepr v).data = (true, natReprChars v.natAbs) := by
      rw [hdata]
      rfl
    have hsv : signedVal (intRepr v).data = v := by
      unfold signedVal
      rw [hsign]
      simp only [if_true, hval]
      omega
    unfold parseRustInt
    rw [hempty, hsign, hsv]
    simp only [Bool.false_eq_true, if_false, hne, hall, if_true]
    rw [if_neg (by omega), if_neg (by omega)]
  · have hdata : (intRepr v).data = natReprChars v.natAbs := by
      rw [intRepr_data, if_neg hv]
    have hempty : (intRepr v).data.isEmpty = false := by rw [hdata]; exact hne
    have hsign : parseSign (intRepr v).data = (false, natReprChars v.natAbs) := by
      rw [hdata, hcr,
        parseSign_not_sign c rest hcd.2.2.2.2.2.2.1 hcd.2.2.2.2.2.2.2.1]
    have hsv : signedVal (intRepr v).data = v := by
      unfold signedVal
      rw [hsign]
      simp only [Bool.false_eq_true, if_false, hval]
      omega
    unfold parseRustInt
    rw [hempty, hsign, hsv]
    simp only [Bool.false_eq_true, if_false, hne, hall, if_true]
    rw [if_neg (by omega), if_neg (by omega)]

theorem trimChars_subset (l : List Char) : trimChars l ⊆ l :=
  fun _ h =>
    (List.dropWhile_suffix isWs).subset ((trimChars_pref l).subset h)

theorem splitChars_length (l : List Char) :
    (splitChars l).length = l.count ',' + 1 := by
  induction l with
  | nil => rfl
  | cons c rest ih =>
    rw [splitChars]
    by_cases hc : c = ','
    · simp [hc, List.count_cons, ih]
    · rw [if_neg hc]
      match hsp : splitChars rest with
      | [] => exact absurd hsp (splitChars_ne_nil rest)
      | p :: ps =>
        rw [hsp] at ih
        simp [List.count_cons, hc, ← ih]

theorem joinChars_head_ws (ps : List (List Char))
    (h : ∀ p ∈ ps, trimChars p = p) :
    ∀ c, (joinChars ps).head? = some c → isWs c = false := by
  intro c hc
  cases ps with
  | nil => simp [joinChars] at hc
  | cons p qs =>
    cases qs with
    | nil =>
      rw [joinChars] at hc
      rw [← h p (by simp)] at hc
      exact trimChars_head p c hc
    | cons q rs =>
      have hj : joinChars (p :: q :: rs) = p ++ ',' :: joinChars (q :: rs) := rfl
      rw [hj, List.head?_append] at hc
      cases hp : p.head? with
      | some d =>
        rw [hp] at hc
        have h2 : some d = some c := hc
        injection h2 with h3
        subst h3
        rw [← h p (by simp)] at hp
        exact trimChars_head p _ hp
      | none =>
        rw [hp] at hc
        have h2 : some ',' = some c := hc
        injection h2 with h3
        subst h3
        decide

theorem joinChars_getLast_ws (ps : List (List Char))
    (h : ∀ p ∈ ps, trimChars p = p) :
    ∀ c, (joinChars ps).getLast? = some c → isWs c = false := by
  induction ps with
  | nil => intro c hc; simp [joinChars] at hc
  | cons p qs ih =>
    intro c hc
    cases qs with
    | nil =>
      rw [joinChars] at hc
      rw [← h p (by simp)] at hc
      exact trimChars_getLast p c hc
    | cons q rs =>
      have hj : joinChars (p :: q :: rs) = p ++ ',' :: joinChars (q :: rs) := rfl
      rw [hj, List.getLast?_append] at hc
      cases hjq : joinChars (q :: rs) with
      | nil =>
        have h1 : (',' :: joinChars (q :: rs)).getLast? = some ',' := by
          rw [hjq]
          decide
        rw [h1] at hc
        have h2 : some ',' = some c := hc
        injection h2 with h3
        subst h3
        decide
      | cons x xs =>
        have hne : joinChars (q :: rs) ≠ [] := by rw [hjq]; simp
        have hsome : (joinChars (q :: rs)).getLast?.isSome := by
          rw [List.getLast?_isSome]
          exact hne
        obtain ⟨d, hd⟩ := Option.isSome_iff_exists.1 hsome
        have h1 : (',' :: joinChars (q :: rs)).getLast? = some d := by
          have h4 : (',' :: joinChars (q :: rs)) = [','] ++ joinChars (q :: rs) := rfl
          rw [h4, List.getLast?_append, hd]
          rfl
        rw [h1] at hc
        have h2 : some d = some c := hc
        injection h2 with h3
        subst h3
        exact ih (fun y hy => h y (by simp [hy])) _ hd

theorem trimChars_joinChars (ps : List (List Char))
    (h : ∀ p ∈ ps, trimChars p = p) :
    trimChars (joinChars ps) = joinChars ps :=
  trimChars_eq_self _ (joinChars_head_ws ps h) (joinChars_getLast_ws ps h)

theorem parseRustInt_ok_bounds (lo hi : ℤ) (s : String) (v : ℤ)
    (h : parseRustInt lo hi s = .ok v) : lo ≤ v ∧ v ≤ hi := by
  unfold parseRustInt at h
  split at h
  · exact absurd h (by simp)
  · split at h
    · exact absurd h (by simp)
    · split at h
      · split at h
        · exact absurd h (by simp)
        · split at h
          · exact absurd h (by simp)
          · rename_i h1 h2
            rw [Except.ok.injEq] at h
            omega
      · exact absurd h (by simp)

/-! ## Lemmas: codec round trips -/

theorem intVal_parse_ok (lo hi : ℤ) (key s : String) (v : ℤ)
    (h : IntVal.parse lo hi key s = .ok v) :
    parseRustInt lo hi (strLower (strTrim s)) = .ok v := by
  unfold IntVal.parse at h
  split at h
  · rename_i w heq
    rw [Except.ok.injEq] at h
    rw [← h]
    exact heq
  · exact absurd h (by simp)

theorem intVal_roundtrip (lo hi : ℤ) (key s : String) (v : ℤ)
    (h : IntVal.parse lo hi key s = .ok v) :
    IntVal.parse lo hi key (IntVal.toConfigString v) = .ok v := by
  obtain ⟨h1, h2⟩ := parseRustInt_ok_bounds lo hi _ v (intVal_parse_ok lo hi key s v h)
  show IntVal.parse lo hi key (intRepr v) = .ok v
  unfold IntVal.parse
  rw [intRepr_untouched, parseRustInt_intRepr lo hi v h1 h2]

theorem boolVal_roundtrip (key s : String) (b : Bool)
    (h : BoolVal.parse key s = .ok b) :
    BoolVal.parse key (BoolVal.toConfigString b) = .ok b := by
  cases b <;> rfl

theorem stringVal_roundtrip (s t : String) (h : StringVal.parse s = .ok t) :
    StringVal.parse (StringVal.toConfigString t) = .ok t := by
  unfold StringVal.parse at h ⊢
  rw [Except.ok.injEq] at h
  rw [StringVal.toConfigString, ← h, strTrim_idem]

theorem passwordVal_roundtrip (s : String) (p : Password)
    (h : PasswordVal.parse s = .ok p) :
    PasswordVal.parse (PasswordVal.toConfigString p) = .ok p := by
  unfold PasswordVal.parse at h ⊢
  rw [Except.ok.injEq] at h
  rw [PasswordVal.toConfigString, ← h, strTrim_idem]

theorem vecString_roundtrip (s : String) (l : List String)
    (h : VecString.parse s = .ok l) :
    VecString.parse (VecString.toConfigString l) = .ok l := by
  unfold VecString.parse at h
  split at h
  · rw [Except.ok.injEq] at h
    rw [← h]
    decide
  · rename_i hne
    rw [Except.ok.injEq] at h
    have ht : trimChars s.data ≠ [] := by
      intro hx
      rw [hx] at hne
      exact hne rfl
    have htt : trimChars (trimChars s.data) = trimChars s.data := trimChars_idem _
    have f1 : ∀ p ∈ (splitChars (trimChars s.data)).map trimChars, trimChars p = p := by
      intro p hp
      obtain ⟨q, _, rfl⟩ := List.mem_map.1 hp
      exact trimChars_idem q
    have f2 : ∀ p ∈ (splitChars (trimChars s.data)).map trimChars, ',' ∉ p := by
      intro p hp hmem
      obtain ⟨q, hq, rfl⟩ := List.mem_map.1 hp
      exact splitChars_no_comma _ q hq (trimChars_subset q hmem)
    have f3 : (splitChars (trimChars s.data)).map trimChars ≠ [] := by
      intro hx
      exact splitChars_ne_nil (trimChars s.data) (List.map_eq_nil_iff.1 hx)
    have f4 : joinChars ((splitChars (trimChars s.data)).map trimChars) ≠ [] := by
      match hqs : splitChars (trimChars s.data) with
      | [] => exact absurd hqs (splitChars_ne_nil _)
      | [q] =>
        have hcount : (trimChars s.data).count ',' = 0 := by
          have := splitChars_length (trimChars s.data)
          rw [hqs] at this
          simpa using this.symm
        have hnc : ',' ∉ trimChars s.data := by
          rw [← List.count_eq_zero]
          exact hcount
        have hq : q = trimChars s.data := by
          have h5 := splitChars_of_no_comma _ hnc
          rw [hqs] at h5
          simpa using h5
        rw [List.map_cons, List.map_nil, hq, htt]
        show joinChars [trimChars s.data] ≠ []
        rw [joinChars]
        exact ht
      | q1 :: q2 :: qrest =>
        rw [List.map_cons, List.map_cons]
        intro hx
        have : joinChars (trimChars q1 :: trimChars q2 :: qrest.map trimChars) =
            trimChars q1 ++ ',' :: joinChars (trimChars q2 :: qrest.map trimChars) := rfl
        rw [this] at hx
        simp at hx
    have hldata : l.map String.data = (splitChars (trimChars s.data)).map trimChars := by
      rw [← h, List.map_map]
      rfl
    show VecString.parse ⟨joinChars (l.map String.data)⟩ = .ok l
    rw [hldata]
    unfold VecString.parse
    have hdata : (String.mk (joinChars ((splitChars (trimChars s.data)).map trimChars))).data
        = joinChars ((splitChars (trimChars s.data)).map trimChars) := rfl
    rw [hdata, trimChars_joinChars _ f1]
    rw [if_neg (by simpa using f4)]
    rw [splitChars_joinChars _ f3 f2]
    rw [Except.ok.injEq, List.map_map, ← h]
    apply List.map_congr_left
    intro q _
    show (⟨trimChars (trimChars q)⟩ : String) = ⟨trimChars q⟩
    rw [trimChars_idem]

/-! ## Lemmas: the `f64` codec round trip -/

theorem den_divInt_pow (m : ℤ) (k : ℕ) : (Rat.divInt m (10 ^ k)).den ∣ 10 ^ k := by
  have h := Rat.den_dvd m ((10 : ℤ) ^ k)
  have h2 : ((10 : ℤ) ^ k) = ((10 ^ k : ℕ) : ℤ) := by push_cast; ring
  rw [h2] at h
  exact_mod_cast h

theorem decQ_den (ip fp : List Char) (e : ℤ) : ∃ j, (decQ ip fp e).den ∣ 10 ^ j := by
  unfold decQ
  split
  · exact ⟨0, by rw [Rat.den_intCast]; exact one_dvd _⟩
  · exact ⟨(e - fp.length).natAbs, den_divInt_pow _ _⟩

theorem parseSpecial_ne_finite (neg : Bool) (cs : List Char) (q : ℚ) :
    parseSpecial neg cs ≠ some (.finite q) := by
  unfold parseSpecial
  split
  · simp
  · split <;> simp

theorem parseNumber_den (cs : List Char) (q : ℚ) (h : parseNumber cs = some q) :
    ∃ j, q.den ∣ 10 ^ j := by
  unfold parseNumber at h
  split at h
  · split at h
    · exact absurd h (by simp)
    · obtain ⟨e, _, he⟩ := Option.map_eq_some'.1 h
      rw [← he]
      exact decQ_den _ _ _
  · split at h
    · exact absurd h (by simp)
    · obtain ⟨e, _, he⟩ := Option.map_eq_some'.1 h
      rw [← he]
      exact decQ_den _ _ _

theorem parseF64_finite_den (s : String) (q : ℚ)
    (h : parseF64 s = some (.finite q)) : ∃ j, q.den ∣ 10 ^ j := by
  unfold parseF64 at h
  split at h
  · exact absurd h (by simp)
  · cases hsp : parseSpecial (parseSign s.data).1 (parseSign s.data).2 with
    | some v =>
      rw [hsp] at h
      have h2 : some v = some (F64.finite q) := h
      injection h2 with h3
      exact absurd (hsp.trans (by rw [h3])) (parseSpecial_ne_finite _ _ q)
    | none =>
      rw [hsp] at h
      have h2 : (parseNumber (parseSign s.data).2).map
          (fun q => F64.finite (if (parseSign s.data).1 then -q else q)) =
          some (F64.finite q) := h
      obtain ⟨q0, hq0, hfin⟩ := Option.map_eq_some'.1 h2
      have h3 : (if (parseSign s.data).1 then -q0 else q0) = q := by
        injection hfin
      obtain ⟨j, hj⟩ := parseNumber_den _ q0 hq0
      refine ⟨j, ?_⟩
      rw [← h3]
      split
      · rwa [Rat.neg_den]
      · exact hj

theorem den_dvd_ten_pow_self (d : ℕ) (hd : d ≠ 0) (e : ℕ) (h : d ∣ 10 ^ e) :
    d ∣ 10 ^ d := by
  rw [← Nat.factorization_le_iff_dvd hd (by positivity)]
  rw [← Nat.factorization_le_iff_dvd hd (by positivity)] at h
  rw [Nat.factorization_pow] at h ⊢
  rw [Finsupp.le_def] at h ⊢
  intro p
  have hp := h p
  rw [Finsupp.smul_apply, smul_eq_mul] at hp ⊢
  by_cases h10 : Nat.factorization 10 p = 0
  · rw [h10] at hp ⊢
    simpa using hp
  · have hfl : d.factorization p < d := Nat.factorization_lt p hd
    have h1 : 1 ≤ Nat.factorization 10 p := Nat.one_le_iff_ne_zero.2 h10
    calc d.factorization p ≤ d := le_of_lt hfl
    _ = d * 1 := (mul_one d).symm
    _ ≤ d * Nat.factorization 10 p := Nat.mul_le_mul_left d h1

theorem fmtQ_spec (q : ℚ) (e : ℕ) (h : q.den ∣ 10 ^ e) :
    ∃ k, q.den ∣ 10 ^ k ∧ fmtQ q = ⟨renderDec q.num q.den k⟩ := by
  have hd : q.den ≠ 0 := Nat.pos_iff_ne_zero.1 q.den_pos
  have hself : q.den ∣ 10 ^ q.den := den_dvd_ten_pow_self q.den hd e h
  have hsome : ((List.range (q.den + 1)).find?
      (fun k => decide (q.den ∣ 10 ^ k))).isSome := by
    rw [List.find?_isSome]
    exact ⟨q.den, by simp, by simpa using hself⟩
  obtain ⟨k, hk⟩ := Option.isSome_iff_exists.1 hsome
  refine ⟨k, by simpa using List.find?_some hk, ?_⟩
  unfold fmtQ
  rw [hk]

theorem takeWhile_digits_append (A : List Char) (b : Char) (r : List Char)
    (hA : ∀ c ∈ A, c.isDigit = true) (hb : b.isDigit = false) :
    (A ++ b :: r).takeWhile Char.isDigit = A ∧
      (A ++ b :: r).dropWhile Char.isDigit = b :: r := by
  induction A with
  | nil => simp [List.takeWhile_cons, List.dropWhile_cons, hb]
  | cons a A ih =>
    have ha : a.isDigit = true := hA a (by simp)
    obtain ⟨h1, h2⟩ := ih (fun c hc => hA c (by simp [hc]))
    constructor
    · rw [List.cons_append, List.takeWhile_cons, if_pos ha, h1]
    · rw [List.cons_append, List.dropWhile_cons, if_pos ha, h2]

theorem digits_take_drop (A : List Char) (hA : ∀ c ∈ A, c.isDigit = true) :
    A.takeWhile Char.isDigit = A ∧ A.dropWhile Char.isDigit = [] := by
  induction A with
  | nil => simp
  | cons a A ih =>
    have ha : a.isDigit = true := hA a (by simp)
    obtain ⟨h1, h2⟩ := ih (fun c hc => hA c (by simp [hc]))
    constructor
    · rw [List.takeWhile_cons, if_pos ha, h1]
    · rw [List.dropWhile_cons, if_pos ha, h2]

theorem padDigits_length (ds : List Char) (k : ℕ) :
    k + 1 ≤ (padDigits ds k).length := by
  simp [padDigits]
  omega

theorem padDigits_val (ds : List Char) (k : ℕ) :
    digitsToNat (padDigits ds k) = digitsToNat ds :=
  digitsToNat_replicate_zero _ ds

theorem padDigits_digitC (ds : List Char) (k : ℕ) (h : ∀ c ∈ ds, DigitC c) :
    ∀ c ∈ padDigits ds k, DigitC c := by
  intro c hc
  rcases List.mem_append.1 hc with h1 | h1
  · rw [List.eq_of_mem_replicate h1]
    exact ⟨0, by omega, rfl⟩
  · exact h c h1

theorem parseNumber_digits (P : List Char) (hne : P ≠ [])
    (hP : ∀ c ∈ P, c.isDigit = true) :
    parseNumber P = some ((digitsToNat P : ℤ) : ℚ) := by
  obtain ⟨htake, hdrop⟩ := digits_take_drop P hP
  unfold parseNumber
  rw [hdrop]
  split
  · rename_i heq
    exact absurd heq (by simp)
  · rw [htake, if_neg (by simpa using hne)]
    show some (decQ P [] 0) = _
    unfold decQ
    rw [if_pos (by simp)]
    unfold decMant
    norm_num [digitsToNat]

theorem parseNumber_point (A B : List Char) (hAne : A ≠ [])
    (hA : ∀ c ∈ A, c.isDigit = true) (hB : ∀ c ∈ B, c.isDigit = true)
    (hk : B.length ≠ 0) :
    parseNumber (A ++ '.' :: B) =
      some (Rat.divInt (decMant A B) (10 ^ B.length)) := by
  obtain ⟨htakeB, hdropB⟩ := digits_take_drop B hB
  obtain ⟨htake, hdrop⟩ := takeWhile_digits_append A '.' B hA (by decide)
  unfold parseNumber
  rw [hdrop]
  split
  · rename_i rest2 heq
    have h2 : B = rest2 := by injection heq
    subst h2
    rw [htake, htakeB, hdropB, if_neg (by simp [hAne])]
    show some (decQ A B 0) = _
    unfold decQ
    rw [if_neg (by omega)]
    have : ((0 : ℤ) - B.length).natAbs = B.length := by omega
    rw [this]
  · rename_i rest hno
    exact absurd rfl (hno B)

theorem renderDec_core_digitC (m k : ℕ) :
    ∀ c ∈ insertPoint (padDigits (natReprChars m) k) k, DigitC c ∨ c = '.' := by
  have hP := padDigits_digitC (natReprChars m) k (natReprChars_digitC m)
  intro c hc
  unfold insertPoint at hc
  split at hc
  · exact Or.inl (hP c hc)
  · rcases List.mem_append.1 hc with h1 | h1
    · exact Or.inl (hP c (List.mem_of_mem_take h1))
    · rcases List.mem_cons.1 h1 with h2 | h2
      · exact Or.inr h2
      · exact Or.inl (hP c (List.mem_of_mem_drop h2))

theorem parseNumber_renderCore (m k : ℕ) :
    parseNumber (insertPoint (padDigits (natReprChars m) k) k) =
      some (Rat.divInt m (10 ^ k)) := by
  have hP := padDigits_digitC (natReprChars m) k (natReprChars_digitC m)
  have hPd : ∀ c ∈ padDigits (natReprChars m) k, c.isDigit = true :=
    fun c hc => (digitC_facts c (hP c hc)).1
  have hlen := padDigits_length (natReprChars m) k
  have hval : digitsToNat (padDigits (natReprChars m) k) = m := by
    rw [padDigits_val]
    exact natReprChars_val m
  by_cases hk : k = 0
  · subst hk
    have hip : insertPoint (padDigits (natReprChars m) 0) 0 =
        padDigits (natReprChars m) 0 := by
      unfold insertPoint
      rw [if_pos rfl]
    rw [hip, parseNumber_digits _ (by intro hx; rw [hx] at hlen; simp at hlen) hPd,
      hval]
    rw [pow_zero, Rat.divInt_one]
  · have hip : insertPoint (padDigits (natReprChars m) k) k =
        (padDigits (natReprChars m) k).take ((padDigits (natReprChars m) k).length - k)
          ++ '.' :: (padDigits (natReprChars m) k).drop
            ((padDigits (natReprChars m) k).length - k) := by
      unfold insertPoint
      rw [if_neg hk]
    have hAne : (padDigits (natReprChars m) k).take
        ((padDigits (natReprChars m) k).length - k) ≠ [] := by
      intro hx
      have := congrArg List.length hx
      simp at this
      omega
    have hBlen : ((padDigits (natReprChars m) k).drop
        ((padDigits (natReprChars m) k).length - k)).length = k := by
      simp
      omega
    rw [hip, parseNumber_point _ _ hAne
      (fun c hc => hPd c (List.mem_of_mem_take hc))
      (fun c hc => hPd c (List.mem_of_mem_drop hc))
      (by rw [hBlen]; exact hk)]
    have hmant : decMant
        ((padDigits (natReprChars m) k).take ((padDigits (natReprChars m) k).length - k))
        ((padDigits (natReprChars m) k).drop ((padDigits (natReprChars m) k).length - k))
        = (m : ℤ) := by
      unfold decMant
      have happ := digitsToNat_append
        ((padDigits (natReprChars m) k).take ((padDigits (natReprChars m) k).length - k))
        ((padDigits (natReprChars m) k).drop ((padDigits (natReprChars m) k).length - k))
      rw [List.take_append_drop] at happ
      rw [hval] at happ
      exact_mod_cast happ.symm
    rw [hmant, hBlen]

theorem renderCore_head (m k : ℕ) :
    ∃ c, (insertPoint (padDigits (natReprChars m) k) k).head? = some c ∧ DigitC c := by
  have hP := padDigits_digitC (natReprChars m) k (natReprChars_digitC m)
  have hlen := padDigits_length (natReprChars m) k
  by_cases hk : k = 0
  · subst hk
    have hne : padDigits (natReprChars m) 0 ≠ [] := by
      intro hx
      rw [hx] at hlen
      simp at hlen
    obtain ⟨c, rest, hcr⟩ := List.exists_cons_of_ne_nil hne
    refine ⟨c, ?_, hP c (by rw [hcr]; simp)⟩
    unfold insertPoint
    rw [if_pos rfl, hcr]
    rfl
  · have hAne : (padDigits (natReprChars m) k).take
        ((padDigits (natReprChars m) k).length - k) ≠ [] := by
      intro hx
      have := congrArg List.length hx
      simp at this
      omega
    obtain ⟨c, rest, hcr⟩ := List.exists_cons_of_ne_nil hAne
    refine ⟨c, ?_, hP c (List.mem_of_mem_take (by rw [hcr]; simp))⟩
    unfold insertPoint
    rw [if_neg hk, hcr]
    rfl

theorem parseSpecial_none_of_digit (neg : Bool) (cs : List Char) (c : Char)
    (hc : cs.head? = some c) (hd : DigitC c) : parseSpecial neg cs = none := by
  obtain ⟨hc1, hc2, hc3, hc4, hc5, hc6, hc7, hc8, hci, hcn, hce, hcE⟩ := digitC_facts c hd
  cases cs with
  | nil => simp at hc
  | cons a rest =>
    have ha : a = c := by
      have h2 : some a = some c := hc
      injection h2
    subst ha
    unfold parseSpecial
    rw [if_neg, if_neg]
    · intro hx
      rw [List.map_cons] at hx
      rw [hc3] at hx
      have : a = 'n' := by
        have h3 := congrArg List.head? hx
        simpa using h3
      exact hcn this
    · intro hx
      rcases hx with hx | hx <;>
      · rw [List.map_cons] at hx
        rw [hc3] at hx
        have : a = 'i' := by
          have h3 := congrArg List.head? hx
          simpa using h3
        exact hci this

theorem parseF64_renderDec (q : ℚ) (k : ℕ) (hdvd : q.den ∣ 10 ^ k) :
    parseF64 ⟨renderDec q.num q.den k⟩ = some (.finite q) := by
  have hden0 : q.den ≠ 0 := Nat.pos_iff_ne_zero.1 q.den_pos
  have hexact : (q.num.natAbs * 10 ^ k / q.den) * q.den = q.num.natAbs * 10 ^ k :=
    Nat.div_mul_cancel (Dvd.dvd.mul_left hdvd q.num.natAbs)
  have hvalue : Rat.divInt (q.num.natAbs * 10 ^ k / q.den : ℕ) (10 ^ k) =
      Rat.divInt q.num.natAbs q.den := by
    rw [Rat.divInt_eq_divInt (by positivity) (by exact_mod_cast hden0)]
    exact_mod_cast hexact
  obtain ⟨c, hhead, hcd⟩ := renderCore_head (q.num.natAbs * 10 ^ k / q.den) k
  have hspec := parseSpecial_none_of_digit
  by_cases hneg : q.num < 0
  · have hdata : (String.mk (renderDec q.num q.den k)).data =
        '-' :: insertPoint (padDigits (natReprChars (q.num.natAbs * 10 ^ k / q.den)) k) k := by
      show renderDec q.num q.den k = _
      unfold renderDec
      rw [if_pos hneg]
    unfold parseF64
    rw [hdata]
    have hempty : ('-' :: insertPoint (padDigits
        (natReprChars (q.num.natAbs * 10 ^ k / q.den)) k) k).isEmpty = false := rfl
    rw [hempty]
    have hsign : parseSign ('-' :: insertPoint (padDigits
        (natReprChars (q.num.natAbs * 10 ^ k / q.den)) k) k) =
        (true, insertPoint (padDigits (natReprChars (q.num.natAbs * 10 ^ k / q.den)) k) k) :=
      rfl
    rw [hsign]
    simp only [Bool.false_eq_true, if_false]
    rw [parseSpecial_none_of_digit true _ c hhead hcd, parseNumber_renderCore]
    show some (F64.finite (-(Rat.divInt (q.num.natAbs * 10 ^ k / q.den : ℕ) (10 ^ k))))
      = some (F64.finite q)
    rw [hvalue]
    have : -(Rat.divInt q.num.natAbs q.den) = q := by
      rw [Rat.neg_divInt]
      have hnum : -(q.num.natAbs : ℤ) = q.num := by omega
      rw [hnum]
      exact q.num_divInt_den
    rw [this]
  · have hdata : (String.mk (renderDec q.num q.den k)).data =
        insertPoint (padDigits (natReprChars (q.num.natAbs * 10 ^ k / q.den)) k) k := by
      show renderDec q.num q.den k = _
      unfold renderDec
      rw [if_neg hneg]
    unfold parseF64
    rw [hdata]
    obtain ⟨d, rest, hdr⟩ : ∃ d rest, insertPoint (padDigits
        (natReprChars (q.num.natAbs * 10 ^ k / q.den)) k) k = d :: rest := by
      cases hx : insertPoint (padDigits (natReprChars (q.num.natAbs * 10 ^ k / q.den)) k) k with
      | nil => rw [hx] at hhead; simp at hhead
      | cons d rest => exact ⟨d, rest, rfl⟩
    have hdc : d = c := by
      rw [hdr] at hhead
      have h2 : some d = some c := hhead
      injection h2
    subst hdc
    have hempty : (insertPoint (padDigits
        (natReprChars (q.num.natAbs * 10 ^ k / q.den)) k) k).isEmpty = false := by
      rw [hdr]
      rfl
    rw [hempty]
    have hsign : parseSign (insertPoint (padDigits
        (natReprChars (q.num.natAbs * 10 ^ k / q.den)) k) k) =
        (false, insertPoint (padDigits (natReprChars (q.num.natAbs * 10 ^ k / q.den)) k) k) := by
      rw [hdr]
      rw [parseSign_not_sign d rest (digitC_facts d hcd).2.2.2.2.2.2.1
        (digitC_facts d hcd).2.2.2.2.2.2.2.1, ← hdr]
    rw [hsign]
    simp only [Bool.false_eq_true, if_false]
    rw [parseSpecial_none_of_digit false _ d hhead hcd, parseNumber_renderCore]
    show some (F64.finite (Rat.divInt (q.num.natAbs * 10 ^ k / q.den : ℕ) (10 ^ k)))
      = some (F64.finite q)
    rw [hvalue]
    have : Rat.divInt q.num.natAbs q.den = q := by
      have hnum : (q.num.natAbs : ℤ) = q.num := by omega
      rw [hnum]
      exact q.num_divInt_den
    rw [this]

theorem f64Val_parse_ok (key s : String) (x : F64)
    (h : F64Val.parse key s = .ok x) :
    parseF64 (strLower (strTrim s)) = some x := by
  unfold F64Val.parse at h
  split at h
  · rename_i v heq
    rw [Except.ok.injEq] at h
    rw [← h]
    exact heq
  · exact absurd h (by simp)

theorem renderDec_untouched (num : ℤ) (den k : ℕ) :
    strLower (strTrim (⟨renderDec num den k⟩ : String)) = ⟨renderDec num den k⟩ := by
  have hchars : ∀ c ∈ renderDec num den k, DigitC c ∨ c = '.' ∨ c = '-' := by
    intro c hc
    unfold renderDec at hc
    have hcore : ∀ c ∈ insertPoint (padDigits
        (natReprChars (num.natAbs * 10 ^ k / den)) k) k, DigitC c ∨ c = '.' :=
      renderDec_core_digitC (num.natAbs * 10 ^ k / den) k
    split at hc
    · rcases List.mem_cons.1 hc with h1 | h1
      · exact Or.inr (Or.inr h1)
      · rcases hcore c h1 with h2 | h2
        · exact Or.inl h2
        · exact Or.inr (Or.inl h2)
    · rcases hcore c hc with h2 | h2
      · exact Or.inl h2
      · exact Or.inr (Or.inl h2)
  have hdata : (⟨renderDec num den k⟩ : String).data = renderDec num den k := rfl
  have hws : ∀ c ∈ (⟨renderDec num den k⟩ : String).data, isWs c = false := by
    rw [hdata]
    intro c hc
    rcases hchars c hc with h | h | h
    · exact (digitC_facts c h).2.1
    · rw [h]; decide
    · rw [h]; decide
  have hlo : ∀ c ∈ (⟨renderDec num den k⟩ : String).data, lowerChar c = c := by
    rw [hdata]
    intro c hc
    rcases hchars c hc with h | h | h
    · exact (digitC_facts c h).2.2.1
    · rw [h]; decide
    · rw [h]; decide
  rw [strTrim_eq_self _ hws, strLower_eq_self _ hlo]

theorem f64Val_roundtrip (key s : String) (x : F64)
    (h : F64Val.parse key s = .ok x) :
    F64Val.parse key (F64Val.toConfigString x) = .ok x := by
  cases x with
  | nan => rfl
  | inf neg => cases neg <;> rfl
  | finite q =>
    obtain ⟨j, hj⟩ := parseF64_finite_den _ q (f64Val_parse_ok key s _ h)
    obtain ⟨k, hk, hfmt⟩ := fmtQ_spec q j hj
    show F64Val.parse key (fmtQ q) = .ok (.finite q)
    rw [hfmt]
    unfold F64Val.parse
    rw [renderDec_untouched, parseF64_renderDec q k hk]

/-! ## Lemmas: schema construction (duplicate detection) -/

theorem lookup_eq_none_iff {β : Type} (l : List (String × β)) (a : String) :
    l.lookup a = none ↔ a ∉ l.map Prod.fst := by
  induction l with
  | nil => simp
  | cons p rest ih =>
    rw [show p = (p.1, p.2) from rfl, List.lookup_cons]
    by_cases h : a = p.1
    · simp [h]
    · simp only [List.map_cons, List.mem_cons]
      have hbeq : (a == p.1) = false := by simpa using h
      rw [hbeq]
      simp [h, ih]

theorem lookup_single_ne {β : Type} (a k : String) (b : β) (h : a ≠ k) :
    List.lookup a [(k, b)] = none := by
  rw [List.lookup_cons]
  have hbeq : (a == k) = false := by simpa using h
  rw [hbeq]
  rfl

theorem insertKey_ok (acc : List (String × ConfigKey)) (k : ConfigKey)
    (acc2 : List (String × ConfigKey)) (h : insertKey acc k = .ok acc2) :
    acc.lookup k.name = none ∧ acc2 = acc ++ [(k.name, k)] := by
  unfold insertKey at h
  split at h
  · exact absurd h (by simp)
  · rename_i hx
    rw [Except.ok.injEq] at h
    exact ⟨Option.not_isSome_iff_eq_none.1 hx, h.symm⟩

theorem insertKey_error (acc : List (String × ConfigKey)) (k : ConfigKey) (e : ConfigError)
    (h : insertKey acc k = .error e) :
    (acc.lookup k.name).isSome ∧ e = .validationFailed k.name
      ("Configuration key '" ++ k.name ++ "' is defined twice.") := by
  unfold insertKey at h
  split at h
  · rename_i hx
    rw [Except.error.injEq] at h
    exact ⟨hx, h.symm⟩
  · exact absurd h (by simp)

theorem insertKeys_ok_iff (keys : List ConfigKey) : ∀ acc,
    (∃ m, insertKeys acc keys = .ok m) ↔
      ((keys.map ConfigKey.name).Nodup ∧ ∀ k ∈ keys, acc.lookup k.name = none) := by
  induction keys with
  | nil =>
    intro acc
    simp [insertKeys]
  | cons k rest ih =>
    intro acc
    cases hik : insertKey acc k with
    | error e =>
      obtain ⟨hsome, _⟩ := insertKey_error acc k e hik
      constructor
      · rintro ⟨m, hm⟩
        rw [insertKeys, hik] at hm
        exact absurd hm (by simp)
      · rintro ⟨_, hall⟩
        rw [hall k (by simp)] at hsome
        exact absurd hsome (by simp)
    | ok acc2 =>
      obtain ⟨hnone, hacc2⟩ := insertKey_ok acc k acc2 hik
      subst hacc2
      constructor
      · rintro ⟨m, hm⟩
        rw [insertKeys, hik] at hm
        obtain ⟨hnd, hall⟩ := (ih _).1 ⟨m, hm⟩
        have hknot : k.name ∉ rest.map ConfigKey.name := by
          intro hmem
          obtain ⟨j, hj, hjn⟩ := List.mem_map.1 hmem
          have h2 := hall j hj
          rw [List.lookup_append, Option.or_eq_none] at h2
          have h3 := h2.2
          rw [hjn] at h3
          rw [List.lookup_cons] at h3
          simp at h3
        refine ⟨by rw [List.map_cons, List.nodup_cons]; exact ⟨hknot, hnd⟩, ?_⟩
        intro j hj
        rcases List.mem_cons.1 hj with h1 | h1
        · rw [h1]
          exact hnone
        · have h2 := hall j h1
          rw [List.lookup_append, Option.or_eq_none] at h2
          exact h2.1
      · rintro ⟨hnd, hall⟩
        rw [List.map_cons, List.nodup_cons] at hnd
        have hside : ∀ j ∈ rest, (acc ++ [(k.name, k)]).lookup j.name = none := by
          intro j hj
          rw [List.lookup_append, Option.or_eq_none]
          refine ⟨hall j (by simp [hj]), ?_⟩
          apply lookup_single_ne
          intro hx
          exact hnd.1 (List.mem_map.2 ⟨j, hj, hx⟩)
        obtain ⟨m, hm⟩ := (ih (acc ++ [(k.name, k)])).2 ⟨hnd.2, hside⟩
        exact ⟨m, by rw [insertKeys, hik]; exact hm⟩

theorem insertKeys_ok_eq (keys : List ConfigKey) : ∀ acc m,
    insertKeys acc keys = .ok m → m = acc ++ keys.map (fun k => (k.name, k)) := by
  induction keys with
  | nil =>
    intro acc m hm
    rw [insertKeys, Except.ok.injEq] at hm
    simp [← hm]
  | cons k rest ih =>
    intro acc m hm
    cases hik : insertKey acc k with
    | error e =>
      rw [insertKeys, hik] at hm
      exact absurd hm (by simp)
    | ok acc2 =>
      obtain ⟨_, hacc2⟩ := insertKey_ok acc k acc2 hik
      rw [insertKeys, hik] at hm
      rw [ih acc2 m hm, hacc2]
      simp

theorem insertKeys_error (keys : List ConfigKey) : ∀ acc,
    ¬((keys.map ConfigKey.name).Nodup ∧ ∀ k ∈ keys, acc.lookup k.name = none) →
    ∃ nm, (nm ∈ acc.map Prod.fst ∨ 2 ≤ (keys.map ConfigKey.name).count nm) ∧
      nm ∈ keys.map ConfigKey.name ∧
      insertKeys acc keys = .error (.validationFailed nm
        ("Configuration key '" ++ nm ++ "' is defined twice.")) := by
  induction keys with
  | nil =>
    intro acc h
    simp at h
  | cons k rest ih =>
    intro acc h
    cases hik : insertKey acc k with
    | error e =>
      obtain ⟨hsome, he⟩ := insertKey_error acc k e hik
      refine ⟨k.name, Or.inl ?_, by simp, ?_⟩
      · obtain ⟨v, hv⟩ := Option.isSome_iff_exists.1 hsome
        have : ¬(acc.lookup k.name = none) := by rw [hv]; simp
        rw [lookup_eq_none_iff] at this
        simpa using this
      · rw [insertKeys, hik, he]
    | ok acc2 =>
      obtain ⟨hnone, hacc2⟩ := insertKey_ok acc k acc2 hik
      have hcond : ¬((rest.map ConfigKey.name).Nodup ∧
          ∀ j ∈ rest, acc2.lookup j.name = none) := by
        intro ⟨hnd, hall⟩
        apply h
        have hknot : k.name ∉ rest.map ConfigKey.name := by
          intro hmem
          obtain ⟨j, hj, hjn⟩ := List.mem_map.1 hmem
          have h2 := hall j hj
          rw [hacc2, List.lookup_append, Option.or_eq_none] at h2
          have h3 := h2.2
          rw [hjn] at h3
          rw [List.lookup_cons] at h3
          simp at h3
        refine ⟨by rw [List.map_cons, List.nodup_cons]; exact ⟨hknot, hnd⟩, ?_⟩
        intro j hj
        rcases List.mem_cons.1 hj with h1 | h1
        · rw [h1]; exact hnone
        · have h2 := hall j h1
          rw [hacc2, List.lookup_append, Option.or_eq_none] at h2
          exact h2.1
      obtain ⟨nm, hd, hmem, herr⟩ := ih acc2 hcond
      refine ⟨nm, ?_, by simp [hmem], by rw [insertKeys, hik]; exact herr⟩
      rcases hd with hin | hcount
      · rw [hacc2, List.map_append] at hin
        rcases List.mem_append.1 hin with h1 | h1
        · exact Or.inl h1
        · have h2 : nm = k.name := by simpa using h1
          have hpos : 0 < (rest.map ConfigKey.name).count nm :=
            List.count_pos_iff.2 hmem
          subst h2
          refine Or.inr ?_
          rw [List.map_cons, List.count_cons]
          simp only [beq_self_eq_true, if_true]
          omega
      · refine Or.inr ?_
        rw [List.map_cons, List.count_cons]
        omega

theorem tryFrom_isOk_iff (keys : List ConfigKey) :
    (ConfigDef.tryFrom keys).isOk = true ↔ (keys.map ConfigKey.name).Nodup := by
  unfold ConfigDef.tryFrom
  constructor
  · intro h
    cases hik : insertKeys [] keys with
    | error e => rw [hik] at h; exact absurd h (by simp [Except.isOk, Except.toBool])
    | ok m => exact ((insertKeys_ok_iff keys []).1 ⟨m, hik⟩).1
  · intro h
    obtain ⟨m, hm⟩ := (insertKeys_ok_iff keys []).2 ⟨h, by simp⟩
    rw [hm]
    rfl

theorem tryFrom_ok_eq (keys : List ConfigKey) (d : ConfigDef)
    (h : ConfigDef.tryFrom keys = .ok d) :
    d.config_keys = keys.map (fun k => (k.name, k)) := by
  unfold ConfigDef.tryFrom at h
  cases hik : insertKeys [] keys with
  | error e => rw [hik] at h; exact absurd h (by simp)
  | ok m =>
    rw [hik, Except.ok.injEq] at h
    rw [← h]
    simpa using insertKeys_ok_eq keys [] m hik

/-! ## Lemmas: merged-schema resolution -/

theorem lookup_isSome_iff {β : Type} (l : List (String × β)) (a : String) :
    (l.lookup a).isSome = true ↔ a ∈ l.map Prod.fst := by
  constructor
  · intro h
    by_contra hx
    rw [← lookup_eq_none_iff] at hx
    rw [hx] at h
    simp at h
  · intro h
    cases hl : l.lookup a with
    | none =>
      rw [lookup_eq_none_iff] at hl
      exact absurd h hl
    | some v => rfl

theorem lookup_flatten_of_mem {β : Type} (parts : List (List (String × β)))
    (p : List (String × β)) (hp : p ∈ parts)
    (hnd : (parts.flatten.map Prod.fst).Nodup) (a : String)
    (h : (p.lookup a).isSome) : parts.flatten.lookup a = p.lookup a := by
  induction parts with
  | nil => simp at hp
  | cons q rest ih =>
    rw [List.flatten_cons, List.lookup_append]
    have hndq : ((q ++ rest.flatten).map Prod.fst).Nodup := by
      rwa [List.flatten_cons] at hnd
    rw [List.map_append, List.nodup_append] at hndq
    rcases List.mem_cons.1 hp with h1 | h1
    · subst h1
      obtain ⟨v, hv⟩ := Option.isSome_iff_exists.1 h
      rw [hv]
      rfl
    · have hmemp : a ∈ p.map Prod.fst := (lookup_isSome_iff p a).1 h
      have hmem : a ∈ rest.flatten.map Prod.fst := by
        rw [List.mem_map] at hmemp ⊢
        obtain ⟨pr, hpr, hf⟩ := hmemp
        exact ⟨pr, List.mem_flatten.2 ⟨p, h1, hpr⟩, hf⟩
      have hq : q.lookup a = none := by
        rw [lookup_eq_none_iff]
        intro hqa
        exact hndq.2.2 hqa hmem
      rw [hq]
      have h2 := ih h1 hndq.2.1
      exact h2

theorem mapExcept_ok_forall {α β : Type} (f : α → Except ConfigError β) :
    ∀ (l : List α) (ys : List β), mapExcept f l = .ok ys →
      List.Forall₂ (fun a b => f a = .ok b) l ys := by
  intro l
  induction l with
  | nil =>
    intro ys h
    rw [mapExcept, Except.ok.injEq] at h
    rw [← h]
    exact List.Forall₂.nil
  | cons a rest ih =>
    intro ys h
    rw [mapExcept] at h
    split at h
    · exact absurd h (by simp)
    · rename_i b hb
      split at h
      · exact absurd h (by simp)
      · rename_i bs hbs
        rw [Except.ok.injEq] at h
        rw [← h]
        exact List.Forall₂.cons hb (ih bs hbs)

theorem forall₂_mem_left {α β : Type} {R : α → β → Prop} {l1 : List α} {l2 : List β}
    (h : List.Forall₂ R l1 l2) (a : α) (ha : a ∈ l1) : ∃ b ∈ l2, R a b := by
  induction h with
  | nil => simp at ha
  | cons hr _ ih =>
    rcases List.mem_cons.1 ha with h1 | h1
    · subst h1
      exact ⟨_, by simp, hr⟩
    · obtain ⟨b, hb, hrb⟩ := ih h1
      exact ⟨b, by simp [hb], hrb⟩

theorem resolveField_congr (d d' : ConfigDef) (props : List (String × String))
    (f : Field) (h : d.find_key f.key.name = d'.find_key f.key.name) :
    resolveField d props f = resolveField d' props f := by
  unfold resolveField resolveOptional getValue
  rw [h]

theorem resolveFields_congr (d d' : ConfigDef) (props : List (String × String))
    (s : List Field) (h : ∀ f ∈ s, d.find_key f.key.name = d'.find_key f.key.name) :
    resolveFields d props s = resolveFields d' props s := by
  induction s with
  | nil => rfl
  | cons f rest ih =>
    rw [resolveFields, resolveFields,
      resolveField_congr d d' props f (h f (by simp)),
      ih (fun g hg => h g (by simp [hg]))]

theorem configDefOf_keys (s : List Field) (ds : ConfigDef)
    (h : configDefOf s = .ok ds) :
    ds.config_keys = (s.map Field.key).map (fun k => (k.name, k)) :=
  tryFrom_ok_eq _ ds h

theorem find_key_merged (subs : List (List Field)) (d : ConfigDef)
    (hd : mergeConfigDef subs = .ok d) (s : List Field) (hs : s ∈ subs)
    (ds : ConfigDef) (hds : configDefOf s = .ok ds) :
    ∀ f ∈ s, d.find_key f.key.name = ds.find_key f.key.name := by
  intro f hf
  unfold mergeConfigDef at hd
  split at hd
  · exact absurd hd (by simp)
  · rename_i keyLists hkl
    have hfa := mapExcept_ok_forall _ subs keyLists hkl
    obtain ⟨kl, hklmem, hklr⟩ := forall₂_mem_left hfa s hs
    rw [hds] at hklr
    have hkl2 : kl = ds.config_keys.map Prod.snd := by
      have h2 : Except.ok (ds.config_keys.map Prod.snd) = Except.ok kl := hklr
      injection h2 with h3
      exact h3.symm
    have hdk : d.config_keys = (keyLists.flatten).map (fun k => (k.name, k)) :=
      tryFrom_ok_eq _ d hd
    have hdsk := configDefOf_keys s ds hds
    have hklkeys : kl = s.map Field.key := by
      rw [hkl2, hdsk, List.map_map]
      simp
    have hparts : d.config_keys =
        (keyLists.map (fun l => l.map (fun k => (k.name, k)))).flatten := by
      rw [hdk, List.map_flatten]
    have hpmem : ds.config_keys ∈
        keyLists.map (fun l => l.map (fun k => (k.name, k))) := by
      rw [List.mem_map]
      exact ⟨kl, hklmem, by rw [hklkeys, hdsk]⟩
    have hnd : (((keyLists.map (fun l => l.map (fun k => (k.name, k)))).flatten).map
        Prod.fst).Nodup := by
      rw [← hparts, hdk, List.map_map]
      have hok : (ConfigDef.tryFrom keyLists.flatten).isOk = true := by
        rw [hd]
        rfl
      have := (tryFrom_isOk_iff keyLists.flatten).1 hok
      simpa using this
    have hsome : (ds.find_key f.key.name).isSome := by
      rw [ConfigDef.find_key, lookup_isSome_iff, hdsk, List.map_map]
      have : f.key.name ∈ s.map (fun g => g.key.name) := by
        rw [List.mem_map]
        exact ⟨f, hf, rfl⟩
      simpa using this
    show d.config_keys.lookup f.key.name = ds.config_keys.lookup f.key.name
    rw [hparts]
    exact lookup_flatten_of_mem _ ds.config_keys hpmem hnd f.key.name hsome

/-! ## Claim theorems -/

/-- C1 counterexample: for the schema with field `a` (`i32`, default `20`,
validator `Range(0,14)`) the default violates its own validator, yet schema
construction succeeds, and a resolution whose raw property map supplies a
valid value for the field also succeeds — no error is raised at
schema-construction time. -/
theorem c1_counterexample :
    (configDefOf [badDefaultField]).isOk = true ∧
    fromProps [badDefaultField] [("a", "5")] = .ok [some (.int 5)] :=
  ⟨by decide, by decide⟩

/-- C1 (amended): a default that violates its own validator is detected
lazily, at resolution time, when resolution actually falls back to it:
resolving the broken-default schema against an empty raw map fails with the
validator's error; and no successful resolution ever uses an unvalidated
default — whenever a field resolves successfully from its default, the
default's `to_config_string` rendering passed the attached validator. -/
theorem c1_lazy_default_validation :
    (fromProps [badDefaultField] [] =
      .error (.validationFailed "a" "Value 20 must be no more than 14")) ∧
    (∀ (d : ConfigDef) (props : List (String × String)) (f : Field)
      (meta : ConfigKey) (dv : CVal) (v : Validator),
      d.find_key f.key.name = some meta →
      propsGet props f.key.name = none →
      meta.default_value = some dv →
      meta.validator = some v →
      (resolveField d props f).isOk = true →
      v.validate f.key.name (CVal.toConfigString dv) = .ok ()) := by
  refine ⟨by decide, ?_⟩
  intro d props f meta dv v hfind hprops hdv hval hok
  cases hvr : v.validate f.key.name (CVal.toConfigString dv) with
  | ok u => cases u; rfl
  | error e =>
    exfalso
    unfold resolveField at hok
    by_cases hopt : f.optional
    · rw [if_pos hopt] at hok
      unfold resolveOptional at hok
      simp only [hfind, hprops, hdv, hval, Option.none_or, Option.map_some',
        hvr] at hok
      simp [Except.isOk, Except.toBool, Except.bind] at hok
    · rw [if_neg hopt] at hok
      unfold getValue at hok
      simp only [hfind, hprops, hdv, hval, Option.none_or, Option.map_some',
        hvr] at hok
      simp [Except.isOk, Except.toBool, Except.map, Except.bind] at hok

/-- Witness for C1's amended theorem: applying it to the broken-default
schema at a raw map supplying `"5"` is impossible, so the witness uses the
successful-default schema `reqField` (default `5`, `Range(0,14)`), whose
default passes its validator. -/
theorem c1_lazy_default_validation_witness :
    (Validator.range (.between 0 14)).validate "a"
      (CVal.toConfigString (.int 5)) = .ok () :=
  c1_lazy_default_validation.2 ⟨[("a", reqField.key)], []⟩ [] reqField
    reqField.key (.int 5) (.range (.between 0 14)) (by decide) (by decide)
    (by decide) (by decide) (by decide)

/-- C2: constructing a `ConfigDef` from a key list succeeds exactly when all
key names are distinct; with a repeated name, whatever the other contents of
the descriptors, construction fails with the `ValidationFailed` error whose
message says the (duplicated) key is defined twice. -/
theorem c2_duplicate_names_rejected (keys : List ConfigKey) :
    ((ConfigDef.tryFrom keys).isOk = true ↔ (keys.map ConfigKey.name).Nodup) ∧
    (¬(keys.map ConfigKey.name).Nodup →
      ∃ nm, 2 ≤ (keys.map ConfigKey.name).count nm ∧
        ConfigDef.tryFrom keys = .error (.validationFailed nm
          ("Configuration key '" ++ nm ++ "' is defined twice."))) := by
  refine ⟨tryFrom_isOk_iff keys, fun hnd => ?_⟩
  obtain ⟨nm, hd, _, herr⟩ := insertKeys_error keys []
    (by intro hx; exact hnd hx.1)
  refine ⟨nm, ?_, ?_⟩
  · rcases hd with h | h
    · simp at h
    · exact h
  · unfold ConfigDef.tryFrom
    rw [herr]

/-- Witness for C2: two descriptors named `"a"` with different contents. -/
theorem c2_duplicate_names_rejected_witness :
    ∃ nm, 2 ≤ (([⟨"a", none, none, none, none, none, false⟩,
        ⟨"a", none, some (.int 1), none, some .HIGH, none, true⟩] :
        List ConfigKey).map ConfigKey.name).count nm ∧
      ConfigDef.tryFrom [⟨"a", none, none, none, none, none, false⟩,
        ⟨"a", none, some (.int 1), none, some .HIGH, none, true⟩] =
        .error (.validationFailed nm
          ("Configuration key '" ++ nm ++ "' is defined twice.")) :=
  (c2_duplicate_names_rejected _).2 (by decide)

/-- C7 counterexample: for a ValidList with allow-list `["a","b","c"]` and
empty lists allowed, the input consisting solely of the separator is not
accepted as the empty list: it fails with the duplicate-values message. -/
theorem c7_counterexample :
    (ValidList.in_list ["a", "b", "c"]).validate "test.config" "," =
      .error (.validationFailed "test.config"
        "Configuration 'test.config' values must not be duplicated.") ∧
    (ValidList.in_list ["a", "b", "c"]).validate "test.config" "," ≠ .ok () :=
  ⟨by decide, by decide⟩

/-- C7 (amended): a ValidList that allows empty lists accepts every raw
string that trims to the empty string (treated as the empty list); a string
consisting solely of the separator with empty sides is instead parsed as two
empty-string items and rejected with the duplicate-values message, for every
ValidList. -/
theorem c7_empty_input_handling :
    (∀ (v : ValidList) (name s : String), v.is_empty_allowed = true →
      trimChars s.data = [] → v.validate name s = .ok ()) ∧
    (∀ (v : ValidList) (name : String), v.validate name "," =
      .error (.validationFailed name
        ("Configuration '" ++ name ++ "' values must not be duplicated."))) := by
  constructor
  · intro v name s hv hs
    have hitems : ValidList.items s = [] := by
      unfold ValidList.items
      rw [hs]
      rfl
    unfold ValidList.validate
    rw [hitems, hv]
    simp [ValidList.checkItems]
  · intro v name
    have hitems : ValidList.items "," = ["", ""] := by decide
    unfold ValidList.validate
    rw [hitems]
    rw [if_neg (by simp), if_pos (by decide)]

/-- Witness for C7's amended theorem at the whitespace-only input. -/
theorem c7_empty_input_handling_witness :
    (ValidList.in_list ["a", "b", "c"]).validate "k" "   " = .ok () :=
  c7_empty_input_handling.1 (ValidList.in_list ["a", "b", "c"]) "k" "   "
    (by decide) (by decide)

/-- C10: `ValidList::in_list_allow_empty` hits its `panic!` (modelled as the
`none` result) exactly when an empty list is disallowed and the slice of
valid strings is empty; every other argument combination returns a
validator. -/
theorem c10_in_list_allow_empty_panic (is_empty_allowed : Bool)
    (valid_strings : List String) :
    ValidList.in_list_allow_empty is_empty_allowed valid_strings = none ↔
      (is_empty_allowed = false ∧ valid_strings = []) := by
  unfold ValidList.in_list_allow_empty
  split
  · rename_i h
    simp [h]
  · rename_i h
    simp [h]

/-- C6: `ValidList::validate` applies its three policies in fixed order:
(1) the empty-list policy first, with a hint naming either "any non-empty
value" or the allow-list display; (2) any input whose trimmed items contain
two identical items fails with the duplicate-values message, regardless of
the other policies; (3) otherwise validation is the in-order per-item check,
where an empty item fails with the empty-values message and an item outside
a non-empty allow-list fails naming the permitted set; together with the
spec's examples for the allow-list `["a","b","c"]` (including `"d,d"`, where
the duplicate message takes precedence over the not-allowed item). -/
theorem c6_validlist_policy_order :
    (∀ (v : ValidList) (name value : String), v.is_empty_allowed = false →
      ValidList.items value = [] →
      v.validate name value = .error (.validationFailed name
        ("Configuration '" ++ name ++ "' must not be empty. Valid values include: "
          ++ (if v.valid_string.valid_strings = [] then "any non-empty value"
              else v.display)))) ∧
    (∀ (v : ValidList) (name value : String), ¬(ValidList.items value).Nodup →
      v.validate name value = .error (.validationFailed name
        ("Configuration '" ++ name ++ "' values must not be duplicated."))) ∧
    (∀ (v : ValidList) (name value : String), (ValidList.items value).Nodup →
      ¬(v.is_empty_allowed = false ∧ ValidList.items value = []) →
      v.validate name value = v.checkItems name (ValidList.items value)) ∧
    (∀ (v : ValidList) (name : String) (rest : List String),
      v.checkItems name ("" :: rest) = .error (.validationFailed name
        ("Configuration '" ++ name ++ "' values must not be empty."))) ∧
    (∀ (v : ValidList) (name val : String) (rest : List String),
      val ≠ "" → v.valid_string.valid_strings ≠ [] →
      v.valid_string.valid_strings.contains val = false →
      v.checkItems name (val :: rest) = .error (.validationFailed name
        ("Invalid value '" ++ val ++ "' for configuration '" ++ name
          ++ "': String must be one of: " ++ joinComma v.valid_string.valid_strings))) ∧
    ((ValidList.in_list ["a", "b", "c"]).validate "k" "a,b" = .ok () ∧
     (ValidList.in_list ["a", "b", "c"]).validate "k" "" = .ok () ∧
     (ValidList.in_list ["a", "b", "c"]).validate "k" "d" =
       .error (.validationFailed "k"
         "Invalid value 'd' for configuration 'k': String must be one of: a, b, c") ∧
     (ValidList.in_list ["a", "b", "c"]).validate "k" "a,a" =
       .error (.validationFailed "k"
         "Configuration 'k' values must not be duplicated.") ∧
     (ValidList.in_list ["a", "b", "c"]).validate "k" "d,d" =
       .error (.validationFailed "k"
         "Configuration 'k' values must not be duplicated.") ∧
     (ValidList.in_list ["a", "b", "c"]).validate "k" "a,,b" =
       .error (.validationFailed "k"
         "Configuration 'k' values must not be empty.")) := by
  refine ⟨?_, ?_, ?_, ?_, ?_,
    by decide, by decide, by decide, by decide, by decide, by decide⟩
  · intro v name value hv hitems
    unfold ValidList.validate
    rw [if_pos ⟨hv, hitems⟩]
  · intro v name value hnd
    have hne : ValidList.items value ≠ [] := by
      intro hx
      rw [hx] at hnd
      exact hnd List.nodup_nil
    have hlen : (ValidList.items value).dedup.length ≠ (ValidList.items value).length := by
      intro hx
      exact hnd (List.dedup_eq_self.1
        ((List.dedup_sublist (ValidList.items value)).eq_of_length hx))
    unfold ValidList.validate
    rw [if_neg (by intro hx; exact hne hx.2), if_pos hlen]
  · intro v name value hnd hcond
    have hlen : ¬((ValidList.items value).dedup.length ≠ (ValidList.items value).length) := by
      rw [List.dedup_eq_self.2 hnd]
      simp
    unfold ValidList.validate
    rw [if_neg hcond, if_neg hlen]
  · intro v name rest
    rw [ValidList.checkItems, if_pos rfl]
  · intro v name val rest hval hne hcontains
    rw [ValidList.checkItems, if_neg hval, if_pos ⟨hne, hcontains⟩]

/-- Witness for C6 (the duplicate-precedence clause and the per-item
clauses, at concrete inputs). -/
theorem c6_validlist_policy_order_witness :
    ((ValidList.any_non_duplicate_values true).validate "k" "x,x" =
      .error (.validationFailed "k"
        "Configuration 'k' values must not be duplicated.")) ∧
    ((ValidList.in_list ["a", "b", "c"]).checkItems "k" ["d"] =
      .error (.validationFailed "k"
        "Invalid value 'd' for configuration 'k': String must be one of: a, b, c")) :=
  ⟨c6_validlist_policy_order.2.1 (ValidList.any_non_duplicate_values true) "k" "x,x"
      (by decide),
   c6_validlist_policy_order.2.2.2.2.1 (ValidList.in_list ["a", "b", "c"]) "k" "d" []
      (by decide) (by decide) (by decide)⟩

/-- C8: `Range::validate` trims and parses the value as an `f64`, failing
with `InvalidValue` when it does not parse; a parsed value strictly below a
configured lower bound fails with "Value V must be at least MIN", one
strictly above a configured upper bound fails with "Value V must be no more
than MAX" (lower bound checked first); otherwise it succeeds — bounds are
inclusive and an absent bound imposes no constraint — and on `Range(0,10)`
the inputs "1", "5", "9" and the boundary values validate while "-1" and
"11" fail naming the respective bound. -/
theorem c8_range_validation :
    (∀ (r : Range) (name value : String), parseF64 (strTrim value) = none →
      r.validate name value = .error (.invalidValue name "Value is not a valid number")) ∧
    (∀ (r : Range) (name value : String) (n : F64) (m : ℚ),
      parseF64 (strTrim value) = some n → r.min = some m →
      F64.lt n (.finite m) = true →
      r.validate name value = .error (.validationFailed name
        ("Value " ++ fmtF64 n ++ " must be at least " ++ fmtQ m))) ∧
    (∀ (r : Range) (name value : String) (n : F64) (m : ℚ),
      parseF64 (strTrim value) = some n →
      (∀ m0, r.min = some m0 → F64.lt n (.finite m0) = false) →
      r.max = some m → F64.lt (.finite m) n = true →
      r.validate name value = .error (.validationFailed name
        ("Value " ++ fmtF64 n ++ " must be no more than " ++ fmtQ m))) ∧
    (∀ (r : Range) (name value : String) (n : F64),
      parseF64 (strTrim value) = some n →
      (∀ m0, r.min = some m0 → F64.lt n (.finite m0) = false) →
      (∀ m1, r.max = some m1 → F64.lt (.finite m1) n = false) →
      r.validate name value = .ok ()) ∧
    ((Range.between 0 10).validate "k" "1" = .ok () ∧
     (Range.between 0 10).validate "k" "5" = .ok () ∧
     (Range.between 0 10).validate "k" "9" = .ok () ∧
     (Range.between 0 10).validate "k" "0" = .ok () ∧
     (Range.between 0 10).validate "k" "10" = .ok () ∧
     (Range.between 0 10).validate "k" "-1" =
       .error (.validationFailed "k" "Value -1 must be at least 0") ∧
     (Range.between 0 10).validate "k" "11" =
       .error (.validationFailed "k" "Value 11 must be no more than 10") ∧
     (Range.at_least 0).validate "k" "999999" = .ok ()) := by
  refine ⟨?_, ?_, ?_, ?_, by decide, by decide, by decide, by decide,
    by decide, by decide, by decide, by decide⟩
  · intro r name value hp
    unfold Range.validate
    simp only [hp]
  · intro r name value n m hp hmin hlt
    unfold Range.validate
    simp only [hp, hmin, hlt, if_true]
  · intro r name value n m hp hmin hmax hlt
    unfold Range.validate
    simp only [hp]
    cases hm : r.min with
    | none =>
      unfold Range.checkMax
      simp only [hmax, hlt, if_true]
    | some m0 =>
      simp only [hmin m0 hm, Bool.false_eq_true, if_false]
      unfold Range.checkMax
      simp only [hmax, hlt, if_true]
  · intro r name value n hp hmin hmax
    unfold Range.validate
    simp only [hp]
    cases hm : r.min with
    | none =>
      unfold Range.checkMax
      cases hx : r.max with
      | none => simp
      | some m1 => simp only [hmax m1 hx, Bool.false_eq_true, if_false]
    | some m0 =>
      simp only [hmin m0 hm, Bool.false_eq_true, if_false]
      unfold Range.checkMax
      cases hx : r.max with
      | none => simp
      | some m1 => simp only [hmax m1 hx, Bool.false_eq_true, if_false]

/-- Witness for C8 (the lower-bound and upper-bound clauses at concrete
inputs on `Range(0,10)`). -/
theorem c8_range_validation_witness :
    ((Range.between 0 10).validate "k" " -1 " =
      .error (.validationFailed "k" "Value -1 must be at least 0")) ∧
    ((Range.between 0 10).validate "k" "11" =
      .error (.validationFailed "k" "Value 11 must be no more than 10")) ∧
    ((Range.between 0 10).validate "k" "xyz" =
      .error (.invalidValue "k" "Value is not a valid number")) ∧
    ((Range.between 0 10).validate "k" "7" = .ok ()) :=
  ⟨c8_range_validation.2.1 (Range.between 0 10) "k" " -1 " (.finite (-1)) 0
      (by decide) (by decide) (by decide),
   c8_range_validation.2.2.1 (Range.between 0 10) "k" "11" (.finite 11) 10
      (by decide) (by intro m0 hm0; injection hm0 with h; rw [← h]; decide)
      (by decide) (by decide),
   c8_range_validation.1 (Range.between 0 10) "k" "xyz" (by decide),
   c8_range_validation.2.2.2.1 (Range.between 0 10) "k" "7" (.finite 7)
      (by decide)
      (by intro m0 hm0; injection hm0 with h; rw [← h]; decide)
      (by intro m1 hm1; injection hm1 with h; rw [← h]; decide)⟩

/-- C3: required-field resolution chooses the raw string from the property
map when the key is present (any default is then irrelevant), else the
default rendered by `to_config_string` (falling back to the default behaves
exactly like supplying that rendering in the map), else fails with
`MissingName`; an attached validator runs on the chosen string before
parsing (a validator error is the resolution result, parsing never runs);
and for the spec's scenario — required `i32` field `a`, default `5`,
`Range(0,14)` — the empty map resolves to `5`, `{"a": "1   "}` resolves
to `1` (trimmed), and `{"a": "20"}` fails naming the upper bound. -/
theorem c3_required_field_resolution :
    (∀ (d d' : ConfigDef) (props : List (String × String)) (name s : String)
      (meta meta' : ConfigKey),
      d.find_key name = some meta → d'.find_key name = some meta' →
      meta.validator = meta'.validator → propsGet props name = some s →
      getValue d props name = getValue d' props name) ∧
    (∀ (d : ConfigDef) (props : List (String × String)) (name : String)
      (meta : ConfigKey) (dv : CVal),
      d.find_key name = some meta → propsGet props name = none →
      meta.default_value = some dv →
      getValue d props name =
        getValue d ((name, CVal.toConfigString dv) :: props) name) ∧
    (∀ (d : ConfigDef) (props : List (String × String)) (name : String)
      (meta : ConfigKey),
      d.find_key name = some meta → propsGet props name = none →
      meta.default_value = none →
      getValue d props name = .error (.missingName name)) ∧
    (∀ (d : ConfigDef) (props : List (String × String)) (f : Field) (e : ConfigError),
      f.optional = false → getValue d props f.key.name = .error e →
      resolveField d props f = .error e) ∧
    (∀ (d : ConfigDef) (props : List (String × String)) (f : Field) (s : String),
      f.optional = false → getValue d props f.key.name = .ok s →
      resolveField d props f = (f.ctype.parse f.key.name s).map some) ∧
    (fromProps [reqField] [] = .ok [some (.int 5)] ∧
     fromProps [reqField] [("a", "1   ")] = .ok [some (.int 1)] ∧
     fromProps [reqField] [("a", "20")] =
       .error (.validationFailed "a" "Value 20 must be no more than 14")) := by
  refine ⟨?_, ?_, ?_, ?_, ?_, by decide, by decide, by decide⟩
  · intro d d' props name s meta meta' hfind hfind' hv hprops
    have h1 : (propsGet props name).or (meta.default_value.map CVal.toConfigString)
        = some s := by
      rw [hprops]
      rfl
    have h1' : (propsGet props name).or (meta'.default_value.map CVal.toConfigString)
        = some s := by
      rw [hprops]
      rfl
    unfold getValue
    simp only [hfind, hfind', h1, h1', hv]
  · intro d props name meta dv hfind hprops hdv
    have h1 : (propsGet props name).or (meta.default_value.map CVal.toConfigString)
        = some (CVal.toConfigString dv) := by
      rw [hprops, hdv]
      rfl
    have h2 : propsGet ((name, CVal.toConfigString dv) :: props) name
        = some (CVal.toConfigString dv) := by
      unfold propsGet
      rw [List.lookup_cons]
      simp
    have h3 : (propsGet ((name, CVal.toConfigString dv) :: props) name).or
        (meta.default_value.map CVal.toConfigString)
        = some (CVal.toConfigString dv) := by
      rw [h2]
      rfl
    unfold getValue
    simp only [hfind, h1, h3]
  · intro d props name meta hfind hprops hdv
    have h1 : (propsGet props name).or (meta.default_value.map CVal.toConfigString)
        = none := by
      rw [hprops, hdv]
      rfl
    unfold getValue
    simp only [hfind, h1]
  · intro d props f e hopt hg
    unfold resolveField
    rw [hopt]
    simp only [Bool.false_eq_true, if_false, hg]
    rfl
  · intro d props f s hopt hg
    unfold resolveField
    rw [hopt]
    simp only [Bool.false_eq_true, if_false, hg]
    rfl

/-- Witness for C3 (the map-wins, default-fallback and missing clauses at a
concrete schema). -/
theorem c3_required_field_resolution_witness :
    (getValue ⟨[("a", reqField.key)], []⟩ [("a", "3")] "a" =
      getValue ⟨[("a", { reqField.key with default_value := none })], []⟩
        [("a", "3")] "a") ∧
    (getValue ⟨[("a", reqField.key)], []⟩ [] "a" =
      getValue ⟨[("a", reqField.key)], []⟩ [("a", "5")] "a") ∧
    (getValue ⟨[("a", { reqField.key with default_value := none })], []⟩ [] "a" =
      .error (.missingName "a")) ∧
    (resolveField ⟨[("a", reqField.key)], []⟩ [("a", "20")] reqField =
      .error (.validationFailed "a" "Value 20 must be no more than 14")) :=
  ⟨c3_required_field_resolution.1 _ _ [("a", "3")] "a" "3" reqField.key
      { reqField.key with default_value := none } (by decide) (by decide)
      (by decide) (by decide),
   c3_required_field_resolution.2.1 _ [] "a" reqField.key (.int 5)
      (by decide) (by decide) (by decide),
   c3_required_field_resolution.2.2.1 _ [] "a"
      { reqField.key with default_value := none } (by decide) (by decide)
      (by decide),
   c3_required_field_resolution.2.2.2.1 _ [("a", "20")] reqField
      (.validationFailed "a" "Value 20 must be no more than 14") (by decide)
      (by decide)⟩

/-- C4: an `Option`-typed field resolves to `none` (success, field absent)
when neither the raw map nor the descriptor's default supplies a value; and
whenever a value is supplied (by map or default), the optional field
resolves exactly as the corresponding required field does — the same
validate-then-parse steps, yielding `some` of the parsed value — as the
concrete scenario (optional `i32`, no default: empty map gives absent,
`"7"` gives `7`) illustrates. -/
theorem c4_optional_field_resolution :
    (∀ (d : ConfigDef) (props : List (String × String)) (f : Field)
      (meta : ConfigKey),
      f.optional = true → d.find_key f.key.name = some meta →
      propsGet props f.key.name = none → meta.default_value = none →
      resolveField d props f = .ok none) ∧
    (∀ (d : ConfigDef) (props : List (String × String)) (f : Field)
      (meta : ConfigKey),
      f.optional = true → d.find_key f.key.name = some meta →
      ((propsGet props f.key.name).or
        (meta.default_value.map CVal.toConfigString)).isSome = true →
      resolveField d props f = resolveField d props ⟨f.key, f.ctype, false⟩) ∧
    (fromProps [optField] [] = .ok [none]) ∧
    (fromProps [optField] [("a", "7")] = .ok [some (.int 7)]) := by
  refine ⟨?_, ?_, by decide, by decide⟩
  · intro d props f meta hopt hfind hprops hdv
    unfold resolveField
    rw [hopt]
    simp only [if_true]
    unfold resolveOptional
    have h1 : (propsGet props f.key.name).or
        (meta.default_value.map CVal.toConfigString) = none := by
      rw [hprops, hdv]
      rfl
    simp only [hfind, h1]
  · intro d props f meta hopt hfind hsome
    obtain ⟨s, hs⟩ := Option.isSome_iff_exists.1 hsome
    unfold resolveField
    rw [hopt]
    simp only [if_true, Bool.false_eq_true, if_false]
    unfold resolveOptional getValue
    simp only [hfind, hs]
    cases hval : meta.validator with
    | none => rfl
    | some v =>
      cases hvr : v.validate f.key.name s with
      | ok u =>
        cases u
        simp only [hvr]
        rfl
      | error e =>
        simp only [hvr]
        rfl

/-- Witness for C4 (absent and supplied cases at the concrete optional
field). -/
theorem c4_optional_field_resolution_witness :
    (resolveField ⟨[("a", optField.key)], []⟩ [] optField = .ok none) ∧
    (resolveField ⟨[("a", optField.key)], []⟩ [("a", "7")] optField =
      resolveField ⟨[("a", optField.key)], []⟩ [("a", "7")]
        ⟨optField.key, optField.ctype, false⟩) :=
  ⟨c4_optional_field_resolution.1 _ [] optField optField.key (by decide)
      (by decide) (by decide) (by decide),
   c4_optional_field_resolution.2.1 _ [("a", "7")] optField optField.key
      (by decide) (by decide) (by decide)⟩

/-- C5: resolving a composite (merged) configuration equals resolving each
sub-schema independently against the same raw property map and composing the
sub-results; moreover resolving a sub-schema's fields against the merged
registry gives exactly the same result as against the sub-schema's own
registry (no field reads an entry belonging to a different sub-schema); a
key repeated across merged schemas fails construction with the defined-twice
error instead of silently overriding; and the spec's merge scenario
resolves a1 = 1, b1 = "hello", a2 = 2, b2 = "value2". -/
theorem c5_merge_resolution :
    (∀ (subs : List (List Field)) (d : ConfigDef) (props : List (String × String)),
      mergeConfigDef subs = .ok d →
      mergeFromProps subs props = mapExcept (fun s => fromProps s props) subs ∧
      ∀ s ∈ subs, ∃ ds, configDefOf s = .ok ds ∧
        resolveFields d props s = resolveFields ds props s) ∧
    (∀ (s1 s2 : List Field) (ds1 ds2 : ConfigDef),
      configDefOf s1 = .ok ds1 → configDefOf s2 = .ok ds2 →
      ¬(((s1 ++ s2).map (fun f => f.key.name)).Nodup) →
      ∃ nm, mergeConfigDef [s1, s2] = .error (.validationFailed nm
        ("Configuration key '" ++ nm ++ "' is defined twice."))) ∧
    (mergeFromProps [mergeS1, mergeS2]
        [("a1", "1   "), ("a2", " 2 "), ("b2", "value2")] =
      .ok [[some (.int 1), some (.str "hello")],
           [some (.int 2), some (.str "value2")]]) ∧
    (mergeConfigDef [mergeS1, mergeS1] =
      .error (.validationFailed "a1" "Configuration key 'a1' is defined twice.")) := by
  refine ⟨?_, ?_, by decide, by decide⟩
  · intro subs d props hd
    constructor
    · unfold mergeFromProps
      rw [hd]
    · intro s hs
      have hd' := hd
      unfold mergeConfigDef at hd'
      split at hd'
      · exact absurd hd' (by simp)
      · rename_i keyLists hkl
        have hfa := mapExcept_ok_forall _ subs keyLists hkl
        obtain ⟨kl, _, hklr⟩ := forall₂_mem_left hfa s hs
        cases hcs : configDefOf s with
        | error e =>
          rw [hcs] at hklr
          exact absurd hklr (by simp [Except.map])
        | ok ds =>
          refine ⟨ds, rfl, ?_⟩
          exact resolveFields_congr d ds props s
            (find_key_merged subs d hd s hs ds hcs)
  · intro s1 s2 ds1 ds2 h1 h2 hnd
    have hkeys : mapExcept (fun s =>
        (configDefOf s).map (fun d0 => d0.config_keys.map Prod.snd)) [s1, s2] =
        .ok [ds1.config_keys.map Prod.snd, ds2.config_keys.map Prod.snd] := by
      unfold mapExcept
      rw [h1]
      unfold mapExcept
      rw [h2]
      rfl
    have hflat : ([ds1.config_keys.map Prod.snd,
        ds2.config_keys.map Prod.snd] : List (List ConfigKey)).flatten =
        s1.map Field.key ++ s2.map Field.key := by
      rw [configDefOf_keys s1 ds1 h1, configDefOf_keys s2 ds2 h2]
      simp only [List.flatten, List.append_nil, List.map_map]
      congr 1
    have hnames : ((s1.map Field.key ++ s2.map Field.key).map ConfigKey.name)
        = (s1 ++ s2).map (fun f => f.key.name) := by
      rw [List.map_append, List.map_append, List.map_map, List.map_map]
      congr 1
    obtain ⟨nm, _, _, herr⟩ := insertKeys_error
      (s1.map Field.key ++ s2.map Field.key) []
      (by
        intro hx
        rw [hnames] at hx
        exact hnd hx.1)
    refine ⟨nm, ?_⟩
    unfold mergeConfigDef
    rw [hkeys]
    show ConfigDef.tryFrom _ = _
    rw [hflat]
    unfold ConfigDef.tryFrom
    rw [herr]

/-- Witness for C5 (the equivalence clause at the spec's merge scenario, and
the duplicate clause on two copies of S1). -/
theorem c5_merge_resolution_witness :
    (∃ ds, configDefOf mergeS1 = .ok ds ∧
      resolveFields ⟨(mergeS1 ++ mergeS2).map (fun f => (f.key.name, f.key)), []⟩
        [("a1", "1   "), ("a2", " 2 "), ("b2", "value2")] mergeS1 =
      resolveFields ds [("a1", "1   "), ("a2", " 2 "), ("b2", "value2")] mergeS1) ∧
    (∃ nm, mergeConfigDef [mergeS1, mergeS1] = .error (.validationFailed nm
      ("Configuration key '" ++ nm ++ "' is defined twice."))) := by
  constructor
  · have hd : mergeConfigDef [mergeS1, mergeS2] =
        .ok ⟨(mergeS1 ++ mergeS2).map (fun f => (f.key.name, f.key)), []⟩ := by
      decide
    exact (c5_merge_resolution.1 [mergeS1, mergeS2] _
      [("a1", "1   "), ("a2", " 2 "), ("b2", "value2")] hd).2 mergeS1 (by decide)
  · exact c5_merge_resolution.2.1 mergeS1 mergeS1
      ⟨mergeS1.map (fun f => (f.key.name, f.key)), []⟩
      ⟨mergeS1.map (fun f => (f.key.name, f.key)), []⟩
      (by decide) (by decide) (by decide)

/-- C9: for every supported scalar codec, a value obtained by a successful
`parse` re-parses from its `to_config_string` rendering to the same value:
the bounded signed integers (one statement covering every width), `bool`,
`f64` (semantic equality in the exact model), `String`, the comma-separated
`Vec<String>` and the secret `Password`. -/
theorem c9_codec_roundtrip :
    (∀ (lo hi : ℤ) (key s : String) (v : ℤ), IntVal.parse lo hi key s = .ok v →
      IntVal.parse lo hi key (IntVal.toConfigString v) = .ok v) ∧
    (∀ (key s : String) (b : Bool), BoolVal.parse key s = .ok b →
      BoolVal.parse key (BoolVal.toConfigString b) = .ok b) ∧
    (∀ (key s : String) (x : F64), F64Val.parse key s = .ok x →
      F64Val.parse key (F64Val.toConfigString x) = .ok x) ∧
    (∀ (s t : String), StringVal.parse s = .ok t →
      StringVal.parse (StringVal.toConfigString t) = .ok t) ∧
    (∀ (s : String) (l : List String), VecString.parse s = .ok l →
      VecString.parse (VecString.toConfigString l) = .ok l) ∧
    (∀ (s : String) (p : Password), PasswordVal.parse s = .ok p →
      PasswordVal.parse (PasswordVal.toConfigString p) = .ok p) :=
  ⟨intVal_roundtrip, boolVal_roundtrip, f64Val_roundtrip, stringVal_roundtrip,
    vecString_roundtrip, passwordVal_roundtrip⟩

/-- Witness for C9 at concrete values of each codec. -/
theorem c9_codec_roundtrip_witness :
    (IntVal.parse i32lo i32hi "k" (IntVal.toConfigString (-45)) = .ok (-45)) ∧
    (BoolVal.parse "k" (BoolVal.toConfigString true) = .ok true) ∧
    (F64Val.parse "k" (F64Val.toConfigString (.finite (Rat.divInt 5 2))) =
      .ok (.finite (Rat.divInt 5 2))) ∧
    (StringVal.parse (StringVal.toConfigString "ab c") = .ok "ab c") ∧
    (VecString.parse (VecString.toConfigString ["a", "b"]) = .ok ["a", "b"]) ∧
    (PasswordVal.parse (PasswordVal.toConfigString ⟨"sec ret"⟩) = .ok ⟨"sec ret"⟩) :=
  ⟨c9_codec_roundtrip.1 i32lo i32hi "k" " -45 " (-45) (by decide),
   c9_codec_roundtrip.2.1 "k" "TRUE" true (by decide),
   c9_codec_roundtrip.2.2.1 "k" "2.5" (.finite (Rat.divInt 5 2)) (by decide),
   c9_codec_roundtrip.2.2.2.1 " ab c " "ab c" (by decide),
   c9_codec_roundtrip.2.2.2.2.1 " a , b " ["a", "b"] (by decide),
   c9_codec_roundtrip.2.2.2.2.2 " sec ret " ⟨"sec ret"⟩ (by decide)⟩

end EasyConfig
